import Mathlib

/-!
# ga+ : an NNTP client that collects the articles of one poster

A shallow embedding of `ga+.go` and proofs about it.

Representation choices.

* A Go `string` is modelled by the list of its runes (`Str`), that is, by
  well-formed UTF-8 text.  All separators the program looks for (`<`, `>`,
  tab, space, `(`, line feed) are ASCII, so cutting at them is the same on
  bytes and on runes.
* The case table of package `unicode` for runes above `0x7F` is not part of the
  program; it is the parameter `tbl` of `toLowerRune`.  ASCII letters are
  folded as `unicode.ToLower` does.
* A connection is the list of complete lines the server still delivers
  (`bufio.Reader.ReadString` returns an error once it is exhausted) together
  with the list of commands written so far.  The program wraps one connection
  in several buffered readers (`authenticateNNTP` makes its own); each of them
  is taken to consume the next lines of the one stream and nothing beyond.
* An instant (`time.Time`) is the number of nanoseconds since the Unix epoch.
  The reading of `time.Now` is an argument: `now` for one call of
  `getArticleNumbers`, `clock k` for the call number `k` of a run.  A reading is
  used only through `AddDate`, whose result depends on the local zone rules; it
  is given as a function (`Now`), so nothing is assumed about the zone.
* `int` is the 64-bit integer of the usual platforms.
-/

namespace GaPlus

/-- A Go string, as the list of its runes. -/
abbrev Str := List Char

/-! ## Package `strings` and `unicode` -/

/-- Rune classification `unicode.IsSpace`. -/
def isSpace (c : Char) : Bool :=
  let n := c.toNat
  n = 9 || n = 10 || n = 11 || n = 12 || n = 13 || n = 32 || n = 0x85 || n = 0xA0 ||
  n = 0x1680 || (0x2000 ≤ n && n ≤ 0x200a) || n = 0x2028 || n = 0x2029 || n = 0x202f ||
  n = 0x205f || n = 0x3000

/-- Lower-casing of one rune, `unicode.ToLower`: ASCII is folded directly, every other
rune goes through the case table `tbl`. -/
def toLowerRune (tbl : Char → Char) (c : Char) : Char :=
  if c.toNat ≤ 0x7F then
    if 65 ≤ c.toNat ∧ c.toNat ≤ 90 then Char.ofNat (c.toNat + 32) else c
  else tbl c

/-- Lower-casing of a string, `strings.ToLower`. -/
def toLower (tbl : Char → Char) (s : Str) : Str := s.map (toLowerRune tbl)

/-- Removal of the leading and trailing runes satisfying `p`, `strings.TrimFunc`. -/
def trimFunc (p : Char → Bool) (s : Str) : Str :=
  ((s.dropWhile p).reverse.dropWhile p).reverse

/-- Whitespace trimming, `strings.TrimSpace`. -/
def trimSpace (s : Str) : Str := trimFunc isSpace s

/-- Trimming with a one-rune cutset, `strings.Trim(s, cutset)`. -/
def trim (s : Str) (cut : Char) : Str := trimFunc (fun c => c == cut) s

/-- Two-way split `strings.SplitN(s, sep, 2)` for a one-rune separator: `parts[0]`, and
`parts[1]` when the separator occurs. -/
def splitN2 (sep : Char) : Str → Str × Option Str
  | [] => ([], none)
  | c :: cs =>
    if c = sep then ([], some cs)
    else (c :: (splitN2 sep cs).1, (splitN2 sep cs).2)

/-- Full split `strings.Split(s, sep)` for a one-rune separator. -/
def split (sep : Char) : Str → List Str
  | [] => [[]]
  | c :: cs =>
    if c = sep then [] :: split sep cs
    else
      match split sep cs with
      | [] => [[c]]
      | p :: ps => (c :: p) :: ps

/-- First element of `strings.Split(s, sep)` for a non-empty `sep`: the text before
the first occurrence of `sep`, or all of `s` when there is none. -/
def splitHead (sep : Str) : Str → Str
  | [] => []
  | c :: cs => if sep.isPrefixOf (c :: cs) then [] else c :: splitHead sep cs

/-- Substring test `strings.Contains(s, sub)`. -/
def contains : Str → Str → Bool
  | [], sub => sub.isPrefixOf []
  | c :: cs, sub => sub.isPrefixOf (c :: cs) || contains cs sub

/-- Prefix test `strings.HasPrefix(s, p)`. -/
def hasPrefix (s p : Str) : Bool := p.isPrefixOf s

/-- Worker of `fields`: `cur` is the field being read. -/
def fieldsAux : Str → Str → List Str
  | [], cur => if cur = [] then [] else [cur]
  | c :: cs, cur =>
    if isSpace c then
      if cur = [] then fieldsAux cs [] else cur :: fieldsAux cs []
    else fieldsAux cs (cur ++ [c])

/-- Whitespace tokenizer `strings.Fields`. -/
def fields (s : Str) : List Str := fieldsAux s []

/-! ## `normalizeSearchTerm` -/

/-- Source function `normalizeSearchTerm` (lines 82-91). -/
def normalizeSearchTerm (tbl : Char → Char) (term : Str) : Str × Str :=
  let term := toLower tbl (trimSpace term)
  let parts := splitN2 '<' term
  let name := trimSpace parts.1
  let email := match parts.2 with
    | some p => trim p '>'
    | none => []
  (name, email)

/-- Removal of trailing runes equal to `cut` only. -/
def trimTrailing (s : Str) (cut : Char) : Str :=
  (s.reverse.dropWhile (fun c => c == cut)).reverse

/-- The normalization as the specification words it: lower-case and trim the term,
cut it at the first `<` (email empty without `<`), drop the trailing `>` of the email. -/
def normalizeSpec (tbl : Char → Char) (t : Str) : Str × Str :=
  let s := trimSpace (t.map (toLowerRune tbl))
  (s.takeWhile (fun c => c != '<'),
   trimTrailing ((s.dropWhile (fun c => c != '<')).drop 1) '>')

/-- The specification's normalization with the two changes the program makes: the name
is trimmed of whitespace once more after the cut, and `>` is removed at both ends of
the email. -/
def normalizeSpecAmended (tbl : Char → Char) (t : Str) : Str × Str :=
  let s := trimSpace (t.map (toLowerRune tbl))
  (trimSpace (s.takeWhile (fun c => c != '<')),
   trim ((s.dropWhile (fun c => c != '<')).drop 1) '>')

/-! ## Package `time`: `time.Parse` with the layout `Mon, 2 Jan 2006 15:04:05 -0700` -/

/-- Value of a decimal digit, none for any other rune. -/
def digitVal (c : Char) : Option Nat :=
  if 48 ≤ c.toNat ∧ c.toNat ≤ 57 then some (c.toNat - 48) else none

/-- Decimal digit test. -/
def isDigitRune (c : Char) : Bool := (digitVal c).isSome

/-- Helper `getnum` of package time: one or two digits (exactly two when `fixed`). -/
def getnum (s : Str) (fixed : Bool) : Option (Nat × Str) :=
  match s with
  | [] => none
  | c0 :: t =>
    match digitVal c0 with
    | none => none
    | some d0 =>
      match t with
      | [] => if fixed then none else some (d0, t)
      | c1 :: u =>
        match digitVal c1 with
        | some d1 => some (d0 * 10 + d1, u)
        | none => if fixed then none else some (d0, t)

/-- Helper `cutspace` of package time. -/
def cutspace (s : Str) : Str := s.dropWhile (fun c => c == ' ')

/-- Helper `skip` of package time for the layout prefix consisting of one space: the
value must be empty or start with a space, and all its leading spaces are consumed. -/
def skipSpace (value : Str) : Option Str :=
  match value with
  | [] => some []
  | c :: cs => if c = ' ' then some (cutspace (c :: cs)) else none

/-- Helper `skip` of package time for a layout prefix consisting of one literal rune. -/
def skipRune (lit : Char) (value : Str) : Option Str :=
  match value with
  | [] => none
  | c :: cs => if c = lit then some cs else none

/-- Helper `match` of package time: equality of two strings of the same length up to
the case of ASCII letters. -/
def matchFold : Str → Str → Bool
  | c1 :: s1, c2 :: s2 =>
    (c1 = c2 || ((c1.toNat ||| 32) = (c2.toNat ||| 32) && 97 ≤ (c1.toNat ||| 32)
      && (c1.toNat ||| 32) ≤ 122)) && matchFold s1 s2
  | _, _ => true

/-- Helper `lookup` of package time: index of the first name of `tab` that starts
`val` (case-insensitively), and the rest of `val`. -/
def lookup (tab : List Str) (val : Str) : Option (Nat × Str) :=
  match tab with
  | [] => none
  | v :: vs =>
    if v.length ≤ val.length ∧ matchFold (val.take v.length) v then
      some (0, val.drop v.length)
    else
      match lookup vs val with
      | some (i, r) => some (i + 1, r)
      | none => none

/-- Table `shortDayNames` of package time. -/
def shortDayNames : List Str :=
  ["Sun".toList, "Mon".toList, "Tue".toList, "Wed".toList, "Thu".toList, "Fri".toList,
   "Sat".toList]

/-- Table `shortMonthNames` of package time. -/
def shortMonthNames : List Str :=
  ["Jan".toList, "Feb".toList, "Mar".toList, "Apr".toList, "May".toList, "Jun".toList,
   "Jul".toList, "Aug".toList, "Sep".toList, "Oct".toList, "Nov".toList, "Dec".toList]

/-- Four-digit year (layout element `2006`). -/
def parseYear (value : Str) : Option (Nat × Str) :=
  match value with
  | a :: b :: c :: d :: rest =>
    match digitVal a, digitVal b, digitVal c, digitVal d with
    | some a, some b, some c, some d => some (a * 1000 + b * 100 + c * 10 + d, rest)
    | _, _, _, _ => none
  | _ => none

/-- Number denoted by a list of decimal digits. -/
def digitsToNat (s : Str) : Nat :=
  s.foldl (fun n c => n * 10 + (c.toNat - 48)) 0

/-- Fractional second accepted after the seconds although the layout has none: a period
or comma followed by digits, of which the first nine count.  Result in nanoseconds. -/
def parseFrac (value : Str) : Nat × Str :=
  match value with
  | c :: d :: rest =>
    if (c = '.' ∨ c = ',') ∧ isDigitRune d then
      let used := ((d :: rest).takeWhile isDigitRune).take 9
      (digitsToNat used * 10 ^ (9 - used.length), (d :: rest).dropWhile isDigitRune)
    else (0, value)
  | _ => (0, value)

/-- Numeric zone (layout element `-0700`): offset east of UTC in seconds. -/
def parseNumTZ (value : Str) : Option (Int × Str) :=
  match value with
  | sgn :: h1 :: h2 :: m1 :: m2 :: rest =>
    match getnum [h1, h2] true, getnum [m1, m2] true with
    | some (hr, _), some (mm, _) =>
      if 24 < hr ∨ 60 < mm then none
      else if sgn = '+' then some (((hr * 60 + mm) * 60 : Nat), rest)
      else if sgn = '-' then some (-((hr * 60 + mm) * 60 : Nat), rest)
      else none
    | _, _ => none
  | _ => none

/-- Leap year test `isLeap` of package time. -/
def isLeap (year : Nat) : Bool := year % 4 = 0 && (year % 100 != 0 || year % 400 = 0)

/-- Number of days of a month (1..12), `daysIn` of package time. -/
def daysIn (month year : Nat) : Nat :=
  if month = 2 then (if isLeap year then 29 else 28)
  else if month = 4 ∨ month = 6 ∨ month = 9 ∨ month = 11 then 30 else 31

/-- Days from 1970-01-01 to the given date of the proleptic Gregorian calendar. -/
def daysSinceEpoch (year month day : Nat) : Int :=
  let y : Int := if month ≤ 2 then (year : Int) - 1 else year
  let era : Int := y / 400
  let yoe : Int := y - era * 400
  let mp : Int := if month ≤ 2 then (month : Int) + 9 else (month : Int) - 3
  let doy : Int := (153 * mp + 2) / 5 + day - 1
  let doe : Int := yoe * 365 + yoe / 4 - yoe / 100 + doy
  era * 146097 + doe - 719468

/-- Call `time.Parse("Mon, 2 Jan 2006 15:04:05 -0700", value)`: the instant in nanoseconds
since the Unix epoch, none when Parse returns an error. -/
def parseDate (value : Str) : Option Int :=
  match lookup shortDayNames value with
  | none => none
  | some (_, v1) =>
  match (skipRune ',' v1).bind skipSpace with
  | none => none
  | some v2 =>
  match getnum v2 false with
  | none => none
  | some (day, v3) =>
  match (skipSpace v3).bind (lookup shortMonthNames) with
  | none => none
  | some (mon, v4) =>
  match (skipSpace v4).bind parseYear with
  | none => none
  | some (year, v5) =>
  match (skipSpace v5).bind (fun v => getnum v false) with
  | none => none
  | some (hour, v6) =>
  if 24 ≤ hour then none else
  match (skipRune ':' v6).bind (fun v => getnum v true) with
  | none => none
  | some (min, v7) =>
  if 60 ≤ min then none else
  match (skipRune ':' v7).bind (fun v => getnum v true) with
  | none => none
  | some (sec, v8) =>
  if 60 ≤ sec then none else
  match (skipSpace (parseFrac v8).2).bind parseNumTZ with
  | none => none
  | some (zoneOffset, v9) =>
  if v9 ≠ [] then none
  else if day < 1 ∨ daysIn (mon + 1) year < day then none
  else
    some (((daysSinceEpoch year (mon + 1) day * 86400 + hour * 3600 + min * 60 + sec
            - zoneOffset) * 1000000000) + (parseFrac v8).1)

/-- ASCII letter test. -/
def isLetterRune (c : Char) : Bool :=
  (65 ≤ c.toNat && c.toNat ≤ 90) || (97 ≤ c.toNat && c.toNat ≤ 122)

/-- The runes a date accepted by `parseDate` is made of: ASCII letters, decimal digits,
blank, comma, colon, period, plus and minus. -/
def dateRune (c : Char) : Bool :=
  isLetterRune c || isDigitRune c || c = ' ' || c = ',' || c = ':' || c = '.' || c = '+' ||
    c = '-'

/-- A parsing step that turns the input `v` into the remainder `r` consumes a text in
front of `r` that is made of date runes. -/
def Consumes (v r : Str) : Prop := ∃ pre, v = pre ++ r ∧ ∀ c ∈ pre, dateRune c = true

/-- Nanoseconds in a day. -/
def nsPerDay : Int := 86400 * 1000000000

/-- A reading of `time.Now()`.  The program uses it only through `AddDate(0, 0, n)`
(line 94), which works on the calendar date of the local time zone with the 64-bit
arithmetic of package time; neither the zone rules nor that arithmetic are part of the
program, so the reading is given by the function `addDate`, where `addDate n` is the
instant of `AddDate(0, 0, n)` applied to the reading. -/
structure Now where
  addDate : Int → Int

/-- A sample reading: the one taken at the instant `t` in a location whose offset from
UTC never changes.  There `AddDate(0, 0, n)` adds `n` times 24 hours, as long as the day
count is far inside the range of package time; it is used below with day counts of at
most 10^9 only. -/
def Now.fixed (t : Int) : Now := ⟨fun n => t + n * nsPerDay⟩

/-- Reduction of an integer to the range of a 64-bit `int` (two's complement). -/
def wrapInt64 (n : Int) : Int := (n + 9223372036854775808) % 18446744073709551616 -
  9223372036854775808

/-- Cutoff `time.Now().AddDate(0, 0, -days)` (line 94); the negation is that of a 64-bit
`int`. -/
def cutoffDate (now : Now) (days : Int) : Int := now.addDate (wrapInt64 (-days))

/-! ## `getArticleNumbers` -/

/-- The terminator line of a multi-line response. -/
def dotCRLF : Str := ".\r\n".toList

/-- Body of the loop of `getArticleNumbers` (lines 105-127) for one line that is not the
terminator: the article number appended to the result, if any. -/
def selectRecord (tbl : Char → Char) (cutoff : Int) (searchName searchEmail : Str)
    (days : Int) (exactMatch : Bool) (line : Str) : Option Str :=
  match split '\t' line with
  | f0 :: _ :: fromField :: f3 :: _ =>
    let (name, email) := normalizeSearchTerm tbl fromField
    let isMatch : Bool :=
      if exactMatch then (name == searchName && email == searchEmail)
      else (contains name searchName && contains email searchEmail)
    if isMatch then
      match parseDate (splitHead " (".toList (trim f3 ' ')) with
      | some date => if days = 0 ∨ cutoff < date then some f0 else none
      | none => none
    else none
  | _ => none

/-- The loop of `getArticleNumbers` (lines 99-128) over the lines the reader still
delivers: the article numbers collected, and the lines left unread. -/
def scanLoop (tbl : Char → Char) (cutoff : Int) (searchName searchEmail : Str)
    (days : Int) (exactMatch : Bool) : List Str → List Str × List Str
  | [] => ([], [])
  | line :: rest =>
    if line = dotCRLF then ([], rest)
    else
      let r := scanLoop tbl cutoff searchName searchEmail days exactMatch rest
      match selectRecord tbl cutoff searchName searchEmail days exactMatch line with
      | some num => (num :: r.1, r.2)
      | none => r

/-- Source function `getArticleNumbers` (lines 93-131), with the current instant `now`
and the reader's remaining lines as arguments; returns the article numbers and the
reader's lines left unread. -/
def getArticleNumbers (tbl : Char → Char) (now : Now) (reader : List Str) (poster : Str)
    (days : Int) (exactMatch : Bool) : List Str × List Str :=
  let cutoff := cutoffDate now days
  let search := normalizeSearchTerm tbl poster
  scanLoop tbl cutoff search.1 search.2 days exactMatch reader

/-! ### Parts of the loop body, named for the statements below -/

/-- The date string handed to `time.Parse` for the date field `f3` (lines 121-122). -/
def dateString (f3 : Str) : Str := splitHead " (".toList (trim f3 ' ')

/-- The poster test of lines 113-118 on a from-field. -/
def posterMatch (tbl : Char → Char) (sn se : Str) (exact : Bool) (fromField : Str) : Bool :=
  if exact then ((normalizeSearchTerm tbl fromField).1 == sn &&
                 (normalizeSearchTerm tbl fromField).2 == se)
  else (contains (normalizeSearchTerm tbl fromField).1 sn &&
        contains (normalizeSearchTerm tbl fromField).2 se)

/-! ## Package `strconv` and the verb `%d` -/

/-- The two kinds of error of `strconv.Atoi`. -/
inductive NumErr
  | badSyntax
  | outOfRange
  deriving DecidableEq, Repr

/-- Largest `uint64`. -/
def maxUint64 : Nat := 18446744073709551615

/-- Loop of `strconv.ParseUint(s, 10, 64)` with the value `n` read so far.  A range
error is returned as soon as it occurs, before the remaining runes are looked at. -/
def parseUintLoop : Str → Nat → Nat × Option NumErr
  | [], n => (n, none)
  | c :: cs, n =>
    match digitVal c with
    | none => (0, some NumErr.badSyntax)
    | some d =>
      if maxUint64 / 10 + 1 ≤ n then (maxUint64, some NumErr.outOfRange)
      else if maxUint64 < n * 10 + d then (maxUint64, some NumErr.outOfRange)
      else parseUintLoop cs (n * 10 + d)

/-- Library function `strconv.ParseUint(s, 10, 64)`. -/
def parseUint (s : Str) : Nat × Option NumErr :=
  match s with
  | [] => (0, some NumErr.badSyntax)
  | _ => parseUintLoop s 0

/-- Library function `strconv.ParseInt(s, 10, 0)` for a 64-bit `int`. -/
def parseInt (s : Str) : Int × Option NumErr :=
  match s with
  | [] => (0, some NumErr.badSyntax)
  | c :: cs =>
    let neg : Bool := c = '-'
    let body := if c = '+' ∨ c = '-' then cs else s
    match parseUint body with
    | (_, some NumErr.badSyntax) => (0, some NumErr.badSyntax)
    | (un, _) =>
      if !neg && 9223372036854775808 ≤ un then (9223372036854775807, some NumErr.outOfRange)
      else if neg && 9223372036854775808 < un then
        (-9223372036854775808, some NumErr.outOfRange)
      else (if neg then -(un : Int) else (un : Int), none)

/-- Digit loop of the fast path of `strconv.Atoi`. -/
def atoiFast : Str → Nat → Option Nat
  | [], n => some n
  | c :: cs, n =>
    match digitVal c with
    | none => none
    | some d => atoiFast cs (n * 10 + d)

/-- Library function `strconv.Atoi` for a 64-bit `int`: the value and the error.  Strings
of 1 to 18 runes take the fast path, all others go through `ParseInt`. -/
def atoi (s : Str) : Int × Option NumErr :=
  match s with
  | [] => parseInt s
  | c :: cs =>
    if s.length < 19 then
      let body := if c = '-' ∨ c = '+' then cs else s
      if body = [] then (0, some NumErr.badSyntax)
      else
        match atoiFast body 0 with
        | none => (0, some NumErr.badSyntax)
        | some n => (if c = '-' then -(n : Int) else (n : Int), none)
    else parseInt s

/-- Rendering of an `int` by the verb `%d`. -/
def formatInt (n : Int) : Str :=
  if n < 0 then '-' :: Nat.toDigits 10 n.natAbs else Nat.toDigits 10 n.toNat

/-- The value of a range field described by its text.  The field is an optional sign
followed by a body, and `run` is the longest run of decimal digits at the start of the
body.  When the run denotes a number above 2^64-1 the value is the bound of the sign
(2^63-1, or -2^63 after a minus sign), whatever follows the run.  Otherwise it is 0 when
the body is empty or holds something that is not a digit.  Otherwise the body is a
number: the value is that number (negated after a minus sign) when it is in the range of
a 64-bit `int`, and the bound of the sign when it is not. -/
def lenientValue (s : Str) : Int :=
  let neg : Bool := s.head? = some '-'
  let body := if s.head? = some '-' ∨ s.head? = some '+' then s.drop 1 else s
  let run := body.takeWhile isDigitRune
  let bound : Int := if neg then -9223372036854775808 else 9223372036854775807
  if maxUint64 < digitsToNat run then bound
  else if body = [] ∨ run ≠ body then 0
  else if neg then
    (if 9223372036854775808 < digitsToNat run then bound else -(digitsToNat run : Int))
  else (if 9223372036854775808 ≤ digitsToNat run then bound else (digitsToNat run : Int))

/-! ## Connections -/

/-- Carriage return, line feed. -/
def crlf : Str := "\r\n".toList

/-- Worker of `splitLines`: `cur` is the line being read. -/
def splitLinesAux : Str → Str → List Str
  | [], _ => []
  | c :: cs, cur =>
    if c = '\n' then (cur ++ [c]) :: splitLinesAux cs []
    else splitLinesAux cs (cur ++ [c])

/-- The successive results of `ReadString` with delimiter line feed on a stream that
delivers the bytes `s` and then ends: the complete lines, each with its line feed.  Text
after the last line feed is returned together with an error, and every caller drops it. -/
def splitLines (s : Str) : List Str := splitLinesAux s []

/-- State of a connection: the complete lines still to be read, and what has been
written to the server, one entry per `Fprintf`. -/
structure Conn where
  lines : List Str
  out : List Str
  deriving DecidableEq, Repr

/-- Effect of `fmt.Fprintf(conn, ...)` with the formatted text `cmd`. -/
def Conn.write (conn : Conn) (cmd : Str) : Conn := ⟨conn.lines, conn.out ++ [cmd]⟩

/-- Errors returned by the program. -/
inductive GaError
  | dial
  | read
  | unexpectedUser (response : Str)
  | authFailed (response : Str)
  | unexpectedGroup (response : Str)
  deriving DecidableEq, Repr

/-- The message of an error made by `fmt.Errorf` (lines 38, 47 and 167); none for the
errors handed on from the network and the reader. -/
def GaError.text : GaError → Option Str
  | GaError.dial => none
  | GaError.read => none
  | GaError.unexpectedUser response =>
    some ("unexpected response to USER: ".toList ++ response)
  | GaError.authFailed response => some ("authentication failed: ".toList ++ response)
  | GaError.unexpectedGroup response =>
    some ("unexpected group response: ".toList ++ response)

/-! ## `authenticateNNTP` -/

/-- Source function `authenticateNNTP` (lines 30-50): the error returned, if any, and the
connection afterwards. -/
def authenticateNNTP (conn : Conn) (username password : Str) : Option GaError × Conn :=
  let conn := conn.write ("AUTHINFO USER ".toList ++ username ++ crlf)
  match conn.lines with
  | [] => (some GaError.read, conn)
  | response :: rest =>
    if !hasPrefix response "381".toList then
      (some (GaError.unexpectedUser response), ⟨rest, conn.out⟩)
    else
      let conn : Conn := ⟨rest, conn.out ++ ["AUTHINFO PASS ".toList ++ password ++ crlf]⟩
      match conn.lines with
      | [] => (some GaError.read, conn)
      | response :: rest =>
        if !hasPrefix response "281".toList then
          (some (GaError.authFailed response), ⟨rest, conn.out⟩)
        else (none, ⟨rest, conn.out⟩)

/-! ## `getGroups` -/

/-- The loop of `getGroups` (lines 69-78) over the lines the reader still delivers. -/
def getGroupsLoop : List Str → List Str
  | [] => []
  | line :: rest =>
    if line = dotCRLF then []
    else
      match fields line with
      | [] => getGroupsLoop rest
      | g :: _ => g :: getGroupsLoop rest

/-- Source function `getGroups` (lines 52-80).  `dial` is the outcome of `dialNNTP`: none
for an error, else the bytes the server delivers on the new connection.  Returns the
result and the commands written. -/
def getGroups (dial : Option Str) (pattern username password : Str) :
    Except GaError (List Str) × List Str :=
  match dial with
  | none => (Except.error GaError.dial, [])
  | some bytes =>
    let conn : Conn := ⟨splitLines bytes, []⟩
    let auth : Option GaError × Conn :=
      if username ≠ [] ∧ password ≠ [] then authenticateNNTP conn username password
      else (none, conn)
    match auth with
    | (some err, conn) => (Except.error err, conn.out)
    | (none, conn) =>
      let conn := conn.write ("list active ".toList ++ pattern ++ crlf)
      (Except.ok (getGroupsLoop conn.lines), conn.out)

/-! ## `getArticles` -/

/-- The header line put in front of an article (line 179). -/
def articleHeader (group articleNum : Str) : Str :=
  "--- Article ".toList ++ group ++ ":".toList ++ articleNum ++ " ---".toList ++ crlf

/-- The loop reading one article (lines 180-189): the lines before the terminator,
concatenated, and the lines left unread; none when the reader fails first. -/
def readArticleBody : List Str → Option (Str × List Str)
  | [] => none
  | line :: rest =>
    if line = dotCRLF then some ([], rest)
    else
      match readArticleBody rest with
      | none => none
      | some (content, rest1) => some (line ++ content, rest1)

/-- The loop over the selected article numbers of one group (lines 176-191), with the
articles `matched` so far. -/
def fetchLoop (group : Str) : List Str → Conn → List Str → Except GaError (List Str) × Conn
  | [], conn, matched => (Except.ok matched, conn)
  | articleNum :: nums, conn, matched =>
    let conn := conn.write ("article ".toList ++ articleNum ++ crlf)
    match readArticleBody conn.lines with
    | none => (Except.error GaError.read, ⟨[], conn.out⟩)
    | some (content, rest) =>
      fetchLoop group nums ⟨rest, conn.out⟩ (matched ++ [articleHeader group articleNum ++ content])

/-- The text of the range command (line 172). -/
def xoverCommand (firstArticle lastArticle : Int) : Str :=
  "xover ".toList ++ formatInt firstArticle ++ "-".toList ++ formatInt lastArticle ++ crlf

/-- The loop over the groups (lines 154-192) followed by the final `quit` (line 194).
`clock k` is the reading of `time.Now` in the call of `getArticleNumbers` that follows
`k` earlier calls; the argument `k` counts the calls made so far. -/
def groupLoop (tbl : Char → Char) (clock : Nat → Now) (poster : Str) (days : Int)
    (exactMatch : Bool) :
    Nat → List Str → Conn → List Str → Except GaError (List Str) × Conn
  | _, [], conn, matched => (Except.ok matched, conn.write ("quit".toList ++ crlf))
  | k, group :: groups, conn, matched =>
    let conn := conn.write ("group ".toList ++ group ++ crlf)
    match conn.lines with
    | [] => (Except.error GaError.read, conn)
    | groupResponse :: rest =>
      let conn : Conn := ⟨rest, conn.out⟩
      if !hasPrefix groupResponse "211 ".toList then
        groupLoop tbl clock poster days exactMatch k groups conn matched
      else
        match fields groupResponse with
        | _ :: _ :: p2 :: p3 :: _ =>
          let firstArticle := (atoi p2).1
          let lastArticle := (atoi p3).1
          let conn := conn.write (xoverCommand firstArticle lastArticle)
          let scan := getArticleNumbers tbl (clock k) conn.lines poster days exactMatch
          match fetchLoop group scan.1 ⟨scan.2, conn.out⟩ matched with
          | (Except.error err, conn) => (Except.error err, conn)
          | (Except.ok matched, conn) =>
            groupLoop tbl clock poster days exactMatch (k + 1) groups conn matched
        | _ => (Except.error (GaError.unexpectedGroup groupResponse), conn)

/-- Source function `getArticles` (lines 133-197).  `dial` is the outcome of `dialNNTP`:
none for an error, else the bytes the server delivers on the new connection.  Returns
the result and the commands written. -/
def getArticles (tbl : Char → Char) (clock : Nat → Now) (dial : Option Str)
    (groups : List Str) (poster : Str) (days : Int) (exactMatch : Bool)
    (username password : Str) : Except GaError (List Str) × List Str :=
  match dial with
  | none => (Except.error GaError.dial, [])
  | some bytes =>
    match splitLines bytes with
    | [] => (Except.error GaError.read, [])
    | _ :: rest =>
      let conn : Conn := ⟨rest, []⟩
      let auth : Option GaError × Conn :=
        if username ≠ [] ∧ password ≠ [] then authenticateNNTP conn username password
        else (none, conn)
      match auth with
      | (some err, conn) => (Except.error err, conn.out)
      | (none, conn) =>
        let run := groupLoop tbl clock poster days exactMatch 0 groups conn []
        (run.1, run.2.out)

/-! ## Sample data of the specification -/

/-- The eight-field index line of the specification's scenarios. -/
def sampleLine : Str :=
  "105\tHello\tJohn Doe <j@x.com>\tMon, 1 Jan 2024 10:00:00 +0000\t...\t...\t...\t...\r\n".toList

/-- The server bytes of a run in which the second of two selected articles is cut off. -/
def truncatedRun : Str :=
  ("200 ready\r\n211 2 105 106 alt.test\r\n" ++
   "105\tHello\tJohn Doe <j@x.com>\tMon, 1 Jan 2024 10:00:00 +0000\t...\t...\t...\t...\r\n" ++
   "106\tRe\tJohn Doe <j@x.com>\tTue, 2 Jan 2024 10:00:00 +0000\t...\t...\t...\t...\r\n" ++
   ".\r\nfirst body\r\n.\r\nsecond bo").toList

/-! ## Auxiliary facts -/

theorem contains_iff_infix (s sub : Str) : contains s sub = true ↔ sub <:+: s := by
  induction s with
  | nil => simp [contains, List.isPrefixOf_iff_prefix]
  | cons c cs ih =>
    simp only [contains, Bool.or_eq_true, ih, List.infix_cons_iff, List.isPrefixOf_iff_prefix]

theorem scanLoop_fst (tbl : Char → Char) (cutoff : Int) (sn se : Str) (days : Int)
    (exact : Bool) (lines : List Str) :
    (scanLoop tbl cutoff sn se days exact lines).1 =
      (lines.takeWhile (fun l => l != dotCRLF)).filterMap
        (selectRecord tbl cutoff sn se days exact) := by
  induction lines with
  | nil => simp [scanLoop]
  | cons line rest ih =>
    by_cases h : line = dotCRLF
    · simp [scanLoop, h]
    · have h1 : (line != dotCRLF) = true := by simpa using h
      simp only [scanLoop, if_neg h, List.takeWhile_cons, h1, if_true, List.filterMap_cons]
      cases hsel : selectRecord tbl cutoff sn se days exact line with
      | none => simpa using ih
      | some num => simpa using ih

theorem scanLoop_snd (tbl : Char → Char) (cutoff : Int) (sn se : Str) (days : Int)
    (exact : Bool) (lines : List Str) :
    (scanLoop tbl cutoff sn se days exact lines).2 =
      (lines.dropWhile (fun l => l != dotCRLF)).drop 1 := by
  induction lines with
  | nil => simp [scanLoop]
  | cons line rest ih =>
    by_cases h : line = dotCRLF
    · simp [scanLoop, h]
    · have h1 : (line != dotCRLF) = true := by simpa using h
      simp only [scanLoop, if_neg h, List.dropWhile_cons, h1, if_true]
      cases hsel : selectRecord tbl cutoff sn se days exact line with
      | none => simpa using ih
      | some num => simpa using ih

theorem takeWhile_ne_of_not_mem (pre : List Str) (h : dotCRLF ∉ pre) :
    pre.takeWhile (fun l => l != dotCRLF) = pre := by
  rw [List.takeWhile_eq_self_iff]
  intro l hl
  have : l ≠ dotCRLF := fun e => h (e ▸ hl)
  simpa using this

theorem takeWhile_ne_append (pre post : List Str) (h : dotCRLF ∉ pre) :
    (pre ++ post).takeWhile (fun l => l != dotCRLF) =
      pre ++ post.takeWhile (fun l => l != dotCRLF) := by
  induction pre with
  | nil => simp
  | cons a pre ih =>
    have ha : a ≠ dotCRLF := fun e => h (by simp [e])
    have hp : dotCRLF ∉ pre := fun m => h (by simp [m])
    have h1 : (a != dotCRLF) = true := by simpa using ha
    simp [List.takeWhile_cons, h1, ih hp]

/-- Splitting a block at a line that is not the terminator and has no terminator before
it: the scan is the scan of the part before, the line's own entry, the scan of the rest. -/
theorem scanLoop_split (tbl : Char → Char) (cutoff : Int) (sn se : Str) (days : Int)
    (exact : Bool) (pre post : List Str) (line : Str) (hpre : dotCRLF ∉ pre)
    (hline : line ≠ dotCRLF) :
    (scanLoop tbl cutoff sn se days exact (pre ++ line :: post)).1 =
      (scanLoop tbl cutoff sn se days exact pre).1 ++
      (selectRecord tbl cutoff sn se days exact line).toList ++
      (scanLoop tbl cutoff sn se days exact post).1 := by
  have h1 : (line != dotCRLF) = true := by simpa using hline
  rw [scanLoop_fst, scanLoop_fst, scanLoop_fst, takeWhile_ne_append _ _ hpre,
    takeWhile_ne_of_not_mem _ hpre, List.takeWhile_cons, h1]
  simp only [if_true, List.filterMap_append, List.filterMap_cons]
  cases hsel : selectRecord tbl cutoff sn se days exact line with
  | none => simp
  | some num => simp

theorem selectRecord_of_fields (tbl : Char → Char) (cutoff : Int) (sn se : Str)
    (days : Int) (exact : Bool) (line f0 f1 fromField f3 : Str) (more : List Str)
    (hfields : split '\t' line = f0 :: f1 :: fromField :: f3 :: more) :
    selectRecord tbl cutoff sn se days exact line =
      if posterMatch tbl sn se exact fromField = true then
        match parseDate (dateString f3) with
        | some date => if days = 0 ∨ cutoff < date then some f0 else none
        | none => none
      else none := by
  simp only [selectRecord, hfields, dateString, posterMatch]

theorem selectRecord_some (tbl : Char → Char) (cutoff : Int) (sn se : Str)
    (days : Int) (exact : Bool) (line num : Str)
    (h : selectRecord tbl cutoff sn se days exact line = some num) :
    ∃ f1 fromField f3 more, split '\t' line = num :: f1 :: fromField :: f3 :: more ∧
      posterMatch tbl sn se exact fromField = true ∧
      ∃ date, parseDate (dateString f3) = some date ∧ (days = 0 ∨ cutoff < date) := by
  rcases hs : split '\t' line with _ | ⟨f0, _ | ⟨f1, _ | ⟨ff, _ | ⟨f3, more⟩⟩⟩⟩
  · simp [selectRecord, hs] at h
  · simp [selectRecord, hs] at h
  · simp [selectRecord, hs] at h
  · simp [selectRecord, hs] at h
  · rw [selectRecord_of_fields _ _ _ _ _ _ _ _ _ _ _ _ hs] at h
    split at h
    · rename_i hm
      cases hd : parseDate (dateString f3) with
      | none => simp [hd] at h
      | some date =>
        simp only [hd] at h
        split at h
        · rename_i hgate
          simp only [Option.some.injEq] at h
          subst h
          exact ⟨f1, ff, f3, more, rfl, hm, date, hd, hgate⟩
        · simp at h
    · simp at h

/-! ### Trimming and splitting -/

theorem trimFunc_eq (p : Char → Bool) (s : Str) :
    trimFunc p s = (s.dropWhile p).rdropWhile p := rfl

theorem dropWhile_prefix_of_head (p : Char → Bool) (a : Char) (y z : Str)
    (ha : p a = false) (hz : z <+: a :: y) : z.dropWhile p = z := by
  cases z with
  | nil => rfl
  | cons b z =>
    have hb : b = a := by
      obtain ⟨t, ht⟩ := hz
      simp only [List.cons_append, List.cons.injEq] at ht
      exact ht.1
    subst hb
    simp [List.dropWhile_cons, ha]

theorem trimFunc_dropWhile (p : Char → Bool) (s : Str) :
    (trimFunc p s).dropWhile p = trimFunc p s := by
  rw [trimFunc_eq]
  cases hy : s.dropWhile p with
  | nil => simp
  | cons a y =>
    have ha : p a = false := by
      have h := List.head_dropWhile_not p s (by simp [hy])
      simpa [hy] using h
    exact dropWhile_prefix_of_head p a y _ ha (List.rdropWhile_prefix p (a :: y))

theorem trimFunc_rdropWhile (p : Char → Bool) (s : Str) :
    (trimFunc p s).rdropWhile p = trimFunc p s := by
  rw [trimFunc_eq, List.rdropWhile_idempotent]

theorem trimFunc_of_trimmed (p : Char → Bool) (s : Str) (h1 : s.dropWhile p = s)
    (h2 : s.rdropWhile p = s) : trimFunc p s = s := by
  rw [trimFunc_eq, h1, h2]

theorem trimFunc_idem (p : Char → Bool) (s : Str) :
    trimFunc p (trimFunc p s) = trimFunc p s :=
  trimFunc_of_trimmed p _ (trimFunc_dropWhile p s) (trimFunc_rdropWhile p s)

theorem mem_of_mem_trimFunc (p : Char → Bool) (s : Str) (c : Char)
    (h : c ∈ trimFunc p s) : c ∈ s := by
  rw [trimFunc_eq] at h
  exact (List.dropWhile_sublist p).subset ((List.rdropWhile_prefix p _).subset h)

/-- Trimming a text that starts and ends with runes outside `p`. -/
theorem trimFunc_of_ends (p : Char → Bool) (s : Str) (a b : Char) (u v : Str)
    (hs : s = a :: u) (hs2 : s = v ++ [b]) (ha : p a = false) (hb : p b = false) :
    trimFunc p s = s := by
  apply trimFunc_of_trimmed
  · rw [hs]
    simp [List.dropWhile_cons, ha]
  · rw [hs2]
    exact List.rdropWhile_concat_neg p v b (by simp [hb])

theorem splitN2_fst (sep : Char) (s : Str) :
    (splitN2 sep s).1 = s.takeWhile (fun c => c != sep) := by
  induction s with
  | nil => rfl
  | cons c cs ih =>
    by_cases h : c = sep
    · simp [splitN2, h]
    · have h1 : (c != sep) = true := by simpa using h
      simp [splitN2, h, List.takeWhile_cons, h1, ih]

theorem splitN2_snd (sep : Char) (s : Str) :
    (splitN2 sep s).2 =
      if sep ∈ s then some ((s.dropWhile (fun c => c != sep)).drop 1) else none := by
  induction s with
  | nil => rfl
  | cons c cs ih =>
    by_cases h : c = sep
    · simp [splitN2, h]
    · have h1 : (c != sep) = true := by simpa using h
      have h2 : ¬ sep = c := fun e => h e.symm
      simp [splitN2, h, List.dropWhile_cons, h1, ih, h2]

theorem splitN2_append (sep : Char) (a b : Str) (ha : sep ∉ a) :
    splitN2 sep (a ++ sep :: b) = (a, some b) := by
  induction a with
  | nil => simp [splitN2]
  | cons c cs ih =>
    have hc : c ≠ sep := fun e => ha (by simp [e])
    have hcs : sep ∉ cs := fun m => ha (by simp [m])
    simp [splitN2, hc, ih hcs]

theorem splitN2_of_not_mem (sep : Char) (a : Str) (ha : sep ∉ a) :
    splitN2 sep a = (a, none) := by
  induction a with
  | nil => rfl
  | cons c cs ih =>
    have hc : c ≠ sep := fun e => ha (by simp [e])
    have hcs : sep ∉ cs := fun m => ha (by simp [m])
    simp [splitN2, hc, ih hcs]

theorem sep_not_mem_splitN2_fst (sep : Char) (s : Str) : sep ∉ (splitN2 sep s).1 := by
  rw [splitN2_fst]
  intro h
  simpa using List.mem_takeWhile_imp h

theorem mem_of_mem_splitN2_fst (sep : Char) (s : Str) (c : Char)
    (h : c ∈ (splitN2 sep s).1) : c ∈ s := by
  rw [splitN2_fst] at h
  exact (List.takeWhile_sublist _).subset h

theorem mem_of_mem_splitN2_snd (sep : Char) (s r : Str) (c : Char)
    (hr : (splitN2 sep s).2 = some r) (h : c ∈ r) : c ∈ s := by
  rw [splitN2_snd] at hr
  split at hr
  · simp only [Option.some.injEq] at hr
    subst hr
    exact (List.dropWhile_sublist _).subset ((List.drop_sublist 1 _).subset h)
  · simp at hr

/-! ### The name and email of a normalized term -/

theorem normalize_name_eq (tbl : Char → Char) (t : Str) :
    (normalizeSearchTerm tbl t).1 =
      trimSpace (splitN2 '<' (toLower tbl (trimSpace t))).1 := rfl

theorem normalize_email_eq (tbl : Char → Char) (t : Str) :
    (normalizeSearchTerm tbl t).2 =
      match (splitN2 '<' (toLower tbl (trimSpace t))).2 with
      | some p => trim p '>'
      | none => [] := rfl

theorem mem_normalize_lowered (tbl : Char → Char) (t : Str) (c : Char)
    (h : c ∈ (normalizeSearchTerm tbl t).1 ∨ c ∈ (normalizeSearchTerm tbl t).2) :
    ∃ d, toLowerRune tbl d = c := by
  have hm : c ∈ toLower tbl (trimSpace t) := by
    rcases h with h | h
    · rw [normalize_name_eq] at h
      exact mem_of_mem_splitN2_fst _ _ _ (mem_of_mem_trimFunc _ _ _ h)
    · rw [normalize_email_eq] at h
      cases hp : (splitN2 '<' (toLower tbl (trimSpace t))).2 with
      | none => simp [hp] at h
      | some p =>
        simp only [hp] at h
        exact mem_of_mem_splitN2_snd _ _ _ _ hp (mem_of_mem_trimFunc _ _ _ h)
  simp only [toLower, List.mem_map] at hm
  obtain ⟨d, -, hd⟩ := hm
  exact ⟨d, hd⟩

theorem lt_not_mem_normalize_name (tbl : Char → Char) (t : Str) :
    '<' ∉ (normalizeSearchTerm tbl t).1 := by
  rw [normalize_name_eq]
  intro h
  exact sep_not_mem_splitN2_fst _ _ (mem_of_mem_trimFunc _ _ _ h)

theorem toLower_fixed (tbl : Char → Char) (s : Str)
    (h : ∀ c ∈ s, toLowerRune tbl c = c) : toLower tbl s = s := by
  unfold toLower
  conv_rhs => rw [← List.map_id s]
  exact List.map_congr_left h

theorem head_not_of_dropWhile_eq (p : Char → Bool) (a : Char) (u : Str)
    (h : (a :: u).dropWhile p = a :: u) : p a = false := by
  by_contra hp
  have hp1 : p a = true := by simpa using hp
  rw [List.dropWhile_cons, if_pos hp1] at h
  have hl := (List.dropWhile_sublist p (l := u)).length_le
  rw [h] at hl
  simp at hl

theorem trimFunc_append_cut (p : Char → Bool) (e : Str) (x : Char) (hx : p x = true)
    (h1 : e.dropWhile p = e) (h2 : e.rdropWhile p = e) : trimFunc p (e ++ [x]) = e := by
  rw [trimFunc_eq]
  cases e with
  | nil => simp [List.dropWhile_cons, hx]
  | cons a u =>
    have ha : p a = false := head_not_of_dropWhile_eq p a u h1
    rw [List.cons_append, List.dropWhile_cons, ha]
    simp only [Bool.false_eq_true, if_false]
    rw [← List.cons_append, List.rdropWhile_concat_pos p _ x hx, h2]

theorem trimSpace_name_append (tbl : Char → Char) (t r : Str) :
    trimSpace ((normalizeSearchTerm tbl t).1 ++ '<' :: (r ++ ['>'])) =
      (normalizeSearchTerm tbl t).1 ++ '<' :: (r ++ ['>']) := by
  have hn : ((normalizeSearchTerm tbl t).1).dropWhile isSpace = (normalizeSearchTerm tbl t).1 := by
    rw [normalize_name_eq]
    exact trimFunc_dropWhile _ _
  cases hc : (normalizeSearchTerm tbl t).1 with
  | nil =>
    exact trimFunc_of_ends isSpace _ '<' '>' (r ++ ['>']) ('<' :: r) rfl (by simp)
      (by decide) (by decide)
  | cons a u =>
    rw [hc] at hn
    exact trimFunc_of_ends isSpace _ a '>' (u ++ '<' :: (r ++ ['>'])) (a :: u ++ '<' :: r)
      (by simp) (by simp) (head_not_of_dropWhile_eq _ _ _ hn) (by decide)

theorem normalize_email_trimmed (tbl : Char → Char) (t : Str) :
    ((normalizeSearchTerm tbl t).2).dropWhile (fun c => c == '>') = (normalizeSearchTerm tbl t).2 ∧
    ((normalizeSearchTerm tbl t).2).rdropWhile (fun c => c == '>') =
      (normalizeSearchTerm tbl t).2 := by
  rw [normalize_email_eq]
  cases (splitN2 '<' (toLower tbl (trimSpace t))).2 with
  | none => simp
  | some p => exact ⟨trimFunc_dropWhile _ _, trimFunc_rdropWhile _ _⟩

/-! ### Lower-casing -/

theorem trimFunc_map (f : Char → Char) (p : Char → Bool) (hp : ∀ c, p (f c) = p c)
    (s : Str) : trimFunc p (s.map f) = (trimFunc p s).map f := by
  have hpf : p ∘ f = p := funext hp
  simp only [trimFunc, List.dropWhile_map, ← List.map_reverse, hpf]

theorem toLowerRune_id_idem (c : Char) :
    toLowerRune id (toLowerRune id c) = toLowerRune id c := by
  by_cases h : 65 ≤ c.toNat ∧ c.toNat ≤ 90
  · have hc : c = Char.ofNat c.toNat := (Char.ofNat_toNat c).symm
    generalize c.toNat = k at h hc
    subst hc
    obtain ⟨h1, h2⟩ := h
    interval_cases k <;> decide
  · have h0 : toLowerRune id c = c := by
      unfold toLowerRune
      simp [h]
    rw [h0, h0]

theorem isSpace_toLowerRune_id (c : Char) : isSpace (toLowerRune id c) = isSpace c := by
  by_cases h : 65 ≤ c.toNat ∧ c.toNat ≤ 90
  · have hc : c = Char.ofNat c.toNat := (Char.ofNat_toNat c).symm
    generalize c.toNat = k at h hc
    subst hc
    obtain ⟨h1, h2⟩ := h
    interval_cases k <;> decide
  · have h0 : toLowerRune id c = c := by
      unfold toLowerRune
      simp [h]
    rw [h0]

/-! ### Reading articles -/

theorem readArticleBody_none (ls : List Str) (h : dotCRLF ∉ ls) :
    readArticleBody ls = none := by
  induction ls with
  | nil => rfl
  | cons l ls ih =>
    have hl : l ≠ dotCRLF := fun e => h (by simp [e])
    have hls : dotCRLF ∉ ls := fun m => h (by simp [m])
    simp [readArticleBody, hl, ih hls]

theorem readArticleBody_count (ls rest : List Str) (content : Str)
    (h : readArticleBody ls = some (content, rest)) :
    ls.count dotCRLF = rest.count dotCRLF + 1 := by
  induction ls generalizing content with
  | nil => simp [readArticleBody] at h
  | cons l ls ih =>
    by_cases hl : l = dotCRLF
    · simp only [readArticleBody, hl, if_true, Option.some.injEq, Prod.mk.injEq] at h
      simp [hl, h.2]
    · simp only [readArticleBody, if_neg hl] at h
      cases hr : readArticleBody ls with
      | none => simp [hr] at h
      | some pr =>
        obtain ⟨c1, r1⟩ := pr
        simp only [hr, Option.some.injEq, Prod.mk.injEq] at h
        have := ih c1 (by rw [hr, h.2])
        simp [List.count_cons, hl, this]

theorem fetchLoop_error (group : Str) (nums : List Str) (conn : Conn) (matched : List Str)
    (h : conn.lines.count dotCRLF < nums.length) :
    (fetchLoop group nums conn matched).1 = Except.error GaError.read := by
  induction nums generalizing conn matched with
  | nil => simp at h
  | cons num nums ih =>
    simp only [fetchLoop, Conn.write]
    cases hr : readArticleBody conn.lines with
    | none => rfl
    | some pr =>
      obtain ⟨content, rest⟩ := pr
      simp only
      apply ih
      have := readArticleBody_count _ _ _ hr
      simp only [List.length_cons] at h
      simp only
      omega

theorem fetchLoop_out_extends (group : Str) (nums : List Str) (conn : Conn)
    (matched : List Str) : conn.out <+: (fetchLoop group nums conn matched).2.out := by
  induction nums generalizing conn matched with
  | nil => simp [fetchLoop]
  | cons num nums ih =>
    simp only [fetchLoop, Conn.write]
    cases hr : readArticleBody conn.lines with
    | none => simp
    | some pr =>
      obtain ⟨content, rest⟩ := pr
      simp only
      exact (List.prefix_append conn.out _).trans (ih ⟨rest, _⟩ _)

theorem groupLoop_out_extends (tbl : Char → Char) (clock : Nat → Now) (poster : Str)
    (days : Int) (exact : Bool) (k : Nat) (groups : List Str) (conn : Conn) (matched : List Str) :
    conn.out <+: (groupLoop tbl clock poster days exact k groups conn matched).2.out := by
  induction groups generalizing k conn matched with
  | nil => simp [groupLoop, Conn.write]
  | cons g gs ih =>
    simp only [groupLoop, Conn.write]
    cases hl : conn.lines with
    | nil => simp
    | cons resp rest =>
      simp only
      split
      · exact (List.prefix_append conn.out _).trans (ih k ⟨rest, _⟩ _)
      · split
        · rename_i p0 p1 p2 p3 more hfields
          have h := fetchLoop_out_extends g
            (getArticleNumbers tbl (clock k) rest poster days exact).1
            ⟨(getArticleNumbers tbl (clock k) rest poster days exact).2,
              conn.out ++ ["group ".toList ++ g ++ crlf] ++
                [xoverCommand (atoi p2).1 (atoi p3).1]⟩ matched
          have h0 : conn.out <+: conn.out ++ ["group ".toList ++ g ++ crlf] ++
              [xoverCommand (atoi p2).1 (atoi p3).1] := by
            rw [List.append_assoc]
            exact List.prefix_append _ _
          split
          · rename_i e c1 hf
            rw [hf] at h
            exact h0.trans h
          · rename_i m1 c1 hf
            rw [hf] at h
            exact (h0.trans h).trans (ih _ _ _)
        · simp

/-- One turn of the loop over the groups for a response that starts with `211 ` and has
at least four fields. -/
theorem groupLoop_step (tbl : Char → Char) (clock : Nat → Now) (poster : Str) (days : Int)
    (exact : Bool) (k : Nat) (group : Str) (groups : List Str) (conn : Conn) (matched : List Str)
    (resp : Str) (rest : List Str) (p0 p1 p2 p3 : Str) (more : List Str)
    (hl : conn.lines = resp :: rest) (h211 : hasPrefix resp "211 ".toList = true)
    (hf : fields resp = p0 :: p1 :: p2 :: p3 :: more) :
    groupLoop tbl clock poster days exact k (group :: groups) conn matched =
      match fetchLoop group (getArticleNumbers tbl (clock k) rest poster days exact).1
        ⟨(getArticleNumbers tbl (clock k) rest poster days exact).2,
         conn.out ++ ["group ".toList ++ group ++ crlf] ++
          [xoverCommand (atoi p2).1 (atoi p3).1]⟩ matched with
      | (Except.error err, c) => (Except.error err, c)
      | (Except.ok m, c) => groupLoop tbl clock poster days exact (k + 1) groups c m := by
  simp only [groupLoop, Conn.write, hl, h211, hf, Bool.not_true, Bool.false_eq_true, if_false]

theorem getGroupsLoop_eq (lines : List Str) :
    getGroupsLoop lines =
      (lines.takeWhile (fun l => l != dotCRLF)).filterMap (fun l => (fields l).head?) := by
  induction lines with
  | nil => rfl
  | cons line rest ih =>
    by_cases h : line = dotCRLF
    · simp [getGroupsLoop, h]
    · have h1 : (line != dotCRLF) = true := by simpa using h
      simp only [getGroupsLoop, if_neg h, List.takeWhile_cons, h1, if_true,
        List.filterMap_cons]
      cases hf : fields line with
      | nil => simpa using ih
      | cons g gs => simpa using ih

theorem takeWhile_ne_terminated (pre post : List Str) (h : dotCRLF ∉ pre) :
    (pre ++ dotCRLF :: post).takeWhile (fun l => l != dotCRLF) = pre := by
  rw [takeWhile_ne_append _ _ h]
  simp

theorem dropWhile_ne_terminated (pre post : List Str) (h : dotCRLF ∉ pre) :
    (pre ++ dotCRLF :: post).dropWhile (fun l => l != dotCRLF) = dotCRLF :: post := by
  induction pre with
  | nil => simp
  | cons a pre ih =>
    have ha : a ≠ dotCRLF := fun e => h (by simp [e])
    have hp : dotCRLF ∉ pre := fun m => h (by simp [m])
    have h1 : (a != dotCRLF) = true := by simpa using ha
    simp [List.dropWhile_cons, h1, ih hp]

/-! ### Decimal numerals -/

theorem digitVal_digitChar (k : Nat) (hk : k < 10) : digitVal (Nat.digitChar k) = some k := by
  interval_cases k <;> decide

theorem foldl_digits_ge (s : Str) (acc : Nat) :
    acc ≤ s.foldl (fun n c => n * 10 + (c.toNat - 48)) acc := by
  induction s generalizing acc with
  | nil => simp
  | cons c cs ih =>
    simp only [List.foldl_cons]
    exact le_trans (by omega) (ih _)

theorem digitVal_eq_some (c : Char) (d : Nat) (h : digitVal c = some d) : d = c.toNat - 48 := by
  unfold digitVal at h
  split at h
  · simp only [Option.some.injEq] at h
    exact h.symm
  · simp at h

theorem atoiFast_digits (s : Str) (acc : Nat) (hs : ∀ c ∈ s, (digitVal c).isSome = true) :
    atoiFast s acc = some (s.foldl (fun n c => n * 10 + (c.toNat - 48)) acc) := by
  induction s generalizing acc with
  | nil => rfl
  | cons c cs ih =>
    obtain ⟨d, hd⟩ := Option.isSome_iff_exists.mp (hs c (by simp))
    simp only [atoiFast, hd, List.foldl_cons]
    rw [ih _ (fun x hx => hs x (by simp [hx])), digitVal_eq_some c d hd]

theorem parseUintLoop_digits (s : Str) (acc : Nat)
    (hs : ∀ c ∈ s, (digitVal c).isSome = true)
    (hmax : s.foldl (fun n c => n * 10 + (c.toNat - 48)) acc ≤ maxUint64) :
    parseUintLoop s acc = (s.foldl (fun n c => n * 10 + (c.toNat - 48)) acc, none) := by
  induction s generalizing acc with
  | nil => rfl
  | cons c cs ih =>
    obtain ⟨d, hd⟩ := Option.isSome_iff_exists.mp (hs c (by simp))
    have hd2 := digitVal_eq_some c d hd
    simp only [List.foldl_cons] at hmax ⊢
    have hge := foldl_digits_ge cs (acc * 10 + (c.toNat - 48))
    have h1 : acc * 10 + d ≤ maxUint64 := by rw [hd2]; exact le_trans hge hmax
    have h2 : ¬ maxUint64 / 10 + 1 ≤ acc := by
      unfold maxUint64 at h1 ⊢
      omega
    have h3 : ¬ maxUint64 < acc * 10 + d := by omega
    simp only [parseUintLoop, hd, if_neg h2, if_neg h3]
    rw [hd2]
    exact ih _ (fun x hx => hs x (by simp [hx])) hmax

/-- The numeral produced by `Nat.toDigits 10`: not empty, decimal digits only, and of
the value it was made from. -/
theorem toDigitsCore_spec (fuel n : Nat) (ds : Str) (h : n < fuel) :
    ∃ pre, Nat.toDigitsCore 10 fuel n ds = pre ++ ds ∧ pre ≠ [] ∧
      (∀ c ∈ pre, (digitVal c).isSome = true) ∧
      pre.foldl (fun n c => n * 10 + (c.toNat - 48)) 0 = n := by
  induction fuel generalizing n ds with
  | zero => omega
  | succ fuel ih =>
    have hd := digitVal_digitChar (n % 10) (Nat.mod_lt _ (by decide))
    by_cases h0 : n / 10 = 0
    · refine ⟨[Nat.digitChar (n % 10)], ?_, by simp, ?_, ?_⟩
      · simp [Nat.toDigitsCore, h0]
      · intro c hc
        simp only [List.mem_singleton] at hc
        rw [hc, hd]
        rfl
      · simp only [List.foldl_cons, List.foldl_nil, ← digitVal_eq_some _ _ hd]
        omega
    · obtain ⟨pre, hpre, -, hdig, hval⟩ := ih (n / 10) (Nat.digitChar (n % 10) :: ds) (by omega)
      refine ⟨pre ++ [Nat.digitChar (n % 10)], ?_, by simp, ?_, ?_⟩
      · simp [Nat.toDigitsCore, h0, hpre]
      · intro c hc
        simp only [List.mem_append, List.mem_singleton] at hc
        rcases hc with hc | hc
        · exact hdig c hc
        · rw [hc, hd]
          rfl
      · simp only [List.foldl_append, List.foldl_cons, List.foldl_nil, hval,
          ← digitVal_eq_some _ _ hd]
        omega

theorem toDigits_spec (n : Nat) :
    Nat.toDigits 10 n ≠ [] ∧ (∀ c ∈ Nat.toDigits 10 n, (digitVal c).isSome = true) ∧
      (Nat.toDigits 10 n).foldl (fun n c => n * 10 + (c.toNat - 48)) 0 = n := by
  obtain ⟨pre, hpre, hne, hdig, hval⟩ := toDigitsCore_spec (n + 1) n [] (by omega)
  have : Nat.toDigits 10 n = pre := by simpa [Nat.toDigits] using hpre
  rw [this]
  exact ⟨hne, hdig, hval⟩

/-- Reading back a canonical decimal numeral below 2^63. -/
theorem atoi_toDigits (n : Nat) (hn : n < 9223372036854775808) :
    atoi (Nat.toDigits 10 n) = ((n : Int), none) := by
  obtain ⟨hne, hdig, hval⟩ := toDigits_spec n
  cases hs : Nat.toDigits 10 n with
  | nil => exact absurd hs hne
  | cons c cs =>
    rw [hs] at hdig hval
    have hc : (digitVal c).isSome = true := hdig c (by simp)
    have hminus : c ≠ '-' := by
      intro e
      rw [e] at hc
      exact absurd hc (by decide)
    have hplus : c ≠ '+' := by
      intro e
      rw [e] at hc
      exact absurd hc (by decide)
    by_cases hlen : (c :: cs).length < 19
    · simp only [atoi, if_pos hlen, hminus, hplus, or_self, if_false]
      rw [atoiFast_digits _ _ hdig, hval]
      simp
    · have hpu : parseUint (c :: cs) = (n, none) := by
        simp only [parseUint]
        rw [parseUintLoop_digits _ _ hdig (by rw [hval]; unfold maxUint64; omega), hval]
      simp only [atoi, if_neg hlen, parseInt, hminus, hplus, or_self, if_false, hpu]
      have h2 : ¬ (9223372036854775808 ≤ n) := by omega
      simp [h2]

theorem formatInt_natCast (n : Nat) : formatInt (n : Int) = Nat.toDigits 10 n := by
  simp [formatInt]

/-! ### Fields of a response -/

theorem fieldsAux_word (w rest cur : Str) (c : Char) (hc : isSpace c = true)
    (hw : ∀ x ∈ w, isSpace x = false) (hne : cur ++ w ≠ []) :
    fieldsAux (w ++ c :: rest) cur = (cur ++ w) :: fieldsAux rest [] := by
  induction w generalizing cur with
  | nil =>
    have hcur : cur ≠ [] := by simpa using hne
    simp [fieldsAux, hc, hcur]
  | cons x w ih =>
    have hx : isSpace x = false := hw x (by simp)
    have hstep : fieldsAux (x :: w ++ c :: rest) cur =
        fieldsAux (w ++ c :: rest) (cur ++ [x]) := by
      simp [fieldsAux, hx]
    rw [hstep, ih (cur ++ [x]) (fun y hy => hw y (by simp [hy])) (by simp)]
    simp

theorem fields_word (w rest : Str) (c : Char) (hc : isSpace c = true)
    (hw : ∀ x ∈ w, isSpace x = false) (hne : w ≠ []) :
    fields (w ++ c :: rest) = w :: fields rest := by
  unfold fields
  rw [fieldsAux_word w rest [] c hc hw (by simpa using hne)]
  simp

theorem isSpace_of_digit (c : Char) (h : (digitVal c).isSome = true) : isSpace c = false := by
  unfold digitVal at h
  split at h
  · rename_i hr
    unfold isSpace
    simp only [Bool.or_eq_false_iff, Bool.and_eq_false_iff, decide_eq_false_iff_not]
    omega
  · simp at h

theorem parseInt_err (s : Str) :
    ((parseInt s).2 = some NumErr.badSyntax → (parseInt s).1 = 0) ∧
    ((parseInt s).2 = some NumErr.outOfRange →
      (parseInt s).1 = 9223372036854775807 ∨ (parseInt s).1 = -9223372036854775808) := by
  unfold parseInt
  split
  · simp
  · simp only
    split
    · simp
    · split_ifs <;> simp

theorem atoi_err (s : Str) :
    ((atoi s).2 = some NumErr.badSyntax → (atoi s).1 = 0) ∧
    ((atoi s).2 = some NumErr.outOfRange →
      (atoi s).1 = 9223372036854775807 ∨ (atoi s).1 = -9223372036854775808) := by
  cases s with
  | nil => exact parseInt_err []
  | cons c cs =>
    by_cases hlen : (c :: cs).length < 19
    · simp only [atoi, if_pos hlen]
      cases atoiFast (if c = '-' ∨ c = '+' then cs else c :: cs) 0 with
      | none => split_ifs <;> simp
      | some n => split_ifs <;> simp
    · simp only [atoi, if_neg hlen]
      exact parseInt_err _

/-- After a response that starts with `211 ` and has at least four fields, the log of
written commands continues with the group command and the range command. -/
theorem groupLoop_step_out (tbl : Char → Char) (clock : Nat → Now) (poster : Str)
    (days : Int) (exact : Bool) (k : Nat) (group : Str) (groups : List Str) (conn : Conn)
    (matched : List Str) (resp : Str) (rest : List Str) (p0 p1 p2 p3 : Str) (more : List Str)
    (hl : conn.lines = resp :: rest) (h211 : hasPrefix resp "211 ".toList = true)
    (hf : fields resp = p0 :: p1 :: p2 :: p3 :: more) :
    conn.out ++ ["group ".toList ++ group ++ crlf] ++ [xoverCommand (atoi p2).1 (atoi p3).1]
      <+: (groupLoop tbl clock poster days exact k (group :: groups) conn matched).2.out := by
  rw [groupLoop_step tbl clock poster days exact k group groups conn matched resp rest p0 p1
    p2 p3 more hl h211 hf]
  have h := fetchLoop_out_extends group
    (getArticleNumbers tbl (clock k) rest poster days exact).1
    ⟨(getArticleNumbers tbl (clock k) rest poster days exact).2,
      conn.out ++ ["group ".toList ++ group ++ crlf] ++
        [xoverCommand (atoi p2).1 (atoi p3).1]⟩ matched
  split
  · rename_i e c hfe
    rw [hfe] at h
    exact h
  · rename_i m c hfe
    rw [hfe] at h
    exact h.trans (groupLoop_out_extends _ _ _ _ _ _ _ _ _)

/-! ## The properties C1 to C20 -/

/-- C1. Substring mode with days = 0: a line before the terminator with at least four
tab-separated fields and a date that parses contributes its field 0 exactly when the
normalized search name is a substring of the record's normalized name and the normalized
search email is a substring of the record's normalized email.  With an empty normalized
search email the name alone decides, and the sample line is not selected for `jane`. -/
theorem C1_substring_mode (tbl : Char → Char) (now : Now) (poster : Str)
    (pre post : List Str) (line f0 f1 fromField f3 : Str) (more : List Str)
    (hpre : dotCRLF ∉ pre) (hline : line ≠ dotCRLF)
    (hfields : split '\t' line = f0 :: f1 :: fromField :: f3 :: more)
    (hdate : (parseDate (dateString f3)).isSome = true) :
    ((getArticleNumbers tbl now (pre ++ line :: post) poster 0 false).1 =
      (getArticleNumbers tbl now pre poster 0 false).1 ++
      (if (normalizeSearchTerm tbl poster).1 <:+: (normalizeSearchTerm tbl fromField).1 ∧
          (normalizeSearchTerm tbl poster).2 <:+: (normalizeSearchTerm tbl fromField).2
        then [f0] else []) ++
      (getArticleNumbers tbl now post poster 0 false).1) ∧
    ((normalizeSearchTerm tbl poster).2 = [] →
      (getArticleNumbers tbl now (pre ++ line :: post) poster 0 false).1 =
        (getArticleNumbers tbl now pre poster 0 false).1 ++
        (if (normalizeSearchTerm tbl poster).1 <:+: (normalizeSearchTerm tbl fromField).1
          then [f0] else []) ++
        (getArticleNumbers tbl now post poster 0 false).1) ∧
    (getArticleNumbers tbl now [sampleLine, dotCRLF] "jane".toList 0 false).1 = [] := by
  have key : (getArticleNumbers tbl now (pre ++ line :: post) poster 0 false).1 =
      (getArticleNumbers tbl now pre poster 0 false).1 ++
      (if (normalizeSearchTerm tbl poster).1 <:+: (normalizeSearchTerm tbl fromField).1 ∧
          (normalizeSearchTerm tbl poster).2 <:+: (normalizeSearchTerm tbl fromField).2
        then [f0] else []) ++
      (getArticleNumbers tbl now post poster 0 false).1 := by
    simp only [getArticleNumbers]
    rw [scanLoop_split _ _ _ _ _ _ _ _ _ hpre hline,
      selectRecord_of_fields _ _ _ _ _ _ _ _ _ _ _ _ hfields]
    obtain ⟨date, hd⟩ := Option.isSome_iff_exists.mp hdate
    simp only [hd, true_or, if_true, posterMatch, Bool.false_eq_true, if_false,
      Bool.and_eq_true, contains_iff_infix]
    split <;> simp
  refine ⟨key, ?_, ?_⟩
  · intro he
    rw [key, he]
    simp
  · rfl

/-- C1 at a concrete block: the sample line, searched for `john`, is selected. -/
theorem C1_substring_mode_witness :
    (getArticleNumbers id (Now.fixed 0) ([] ++ sampleLine :: [dotCRLF]) "john".toList 0 false).1 =
      ["105".toList] := by
  have h := (C1_substring_mode id (Now.fixed 0) "john".toList [] [dotCRLF] sampleLine "105".toList
    "Hello".toList "John Doe <j@x.com>".toList "Mon, 1 Jan 2024 10:00:00 +0000".toList
    ["...".toList, "...".toList, "...".toList, "...\r\n".toList]
    (by decide) (by decide) (by decide) (by decide)).1
  rw [h]
  decide

/-- C2. Exact mode: every article number returned comes from a line before the
terminator whose from-field normalizes to the same (name, email) pair as the poster
filter; with days = 0 every such line with at least four tab fields and a date that
parses is selected; the sample line with the filter `john doe <j@x.com>` gives `105`. -/
theorem C2_exact_mode (tbl : Char → Char) (now : Now) (poster : Str) (days : Int)
    (lines : List Str) :
    (∀ num ∈ (getArticleNumbers tbl now lines poster days true).1,
      ∃ line f1 fromField f3 more, line ∈ lines.takeWhile (fun l => l != dotCRLF) ∧
        split '\t' line = num :: f1 :: fromField :: f3 :: more ∧
        normalizeSearchTerm tbl fromField = normalizeSearchTerm tbl poster) ∧
    (∀ line f0 f1 fromField f3 more, line ∈ lines.takeWhile (fun l => l != dotCRLF) →
        split '\t' line = f0 :: f1 :: fromField :: f3 :: more →
        normalizeSearchTerm tbl fromField = normalizeSearchTerm tbl poster →
        (parseDate (dateString f3)).isSome = true →
        f0 ∈ (getArticleNumbers tbl now lines poster 0 true).1) ∧
    (getArticleNumbers tbl now [sampleLine, dotCRLF] "john doe <j@x.com>".toList 0 true).1 =
      ["105".toList] := by
  refine ⟨?_, ?_, ?_⟩
  · intro num hnum
    simp only [getArticleNumbers, scanLoop_fst, List.mem_filterMap] at hnum
    obtain ⟨line, hmem, hsel⟩ := hnum
    obtain ⟨f1, ff, f3, more, hs, hm, -⟩ := selectRecord_some _ _ _ _ _ _ _ _ hsel
    refine ⟨line, f1, ff, f3, more, hmem, hs, ?_⟩
    simp only [posterMatch, if_true, Bool.and_eq_true, beq_iff_eq] at hm
    exact Prod.ext hm.1 hm.2
  · intro line f0 f1 ff f3 more hmem hs hn hd
    simp only [getArticleNumbers, scanLoop_fst, List.mem_filterMap]
    refine ⟨line, hmem, ?_⟩
    rw [selectRecord_of_fields _ _ _ _ _ _ _ _ _ _ _ _ hs]
    obtain ⟨date, hd⟩ := Option.isSome_iff_exists.mp hd
    simp [posterMatch, hn, hd]
  · rfl

/-- C2 at a concrete block: upper-case letters and surrounding blanks in the filter are
neutralized, and a record of another poster in the same block is not returned. -/
theorem C2_exact_mode_witness :
    "105".toList ∈ (getArticleNumbers id (Now.fixed 0)
      ["7\ts\tJane <j@x.com>\tMon, 1 Jan 2024 10:00:00 +0000\tx\r\n".toList, sampleLine, dotCRLF]
      " John DOE <J@X.com> ".toList 0 true).1 :=
  (C2_exact_mode id (Now.fixed 0) " John DOE <J@X.com> ".toList 0
    ["7\ts\tJane <j@x.com>\tMon, 1 Jan 2024 10:00:00 +0000\tx\r\n".toList, sampleLine, dotCRLF]).2.1
    sampleLine "105".toList "Hello".toList "John Doe <j@x.com>".toList
    "Mon, 1 Jan 2024 10:00:00 +0000".toList
    ["...".toList, "...".toList, "...".toList, "...\r\n".toList]
    (by decide) (by decide) (by decide) (by decide)

/-- C3. `normalizeSearchTerm` is idempotent, for a case table whose lower-casing is
idempotent (as that of package unicode is): writing a normalized pair (n, e) back as
the term `n<e>` and normalizing it gives (n, e) again, and normalizing `n` alone gives
the name `n`. -/
theorem C3_normalize_idempotent (tbl : Char → Char)
    (hlow : ∀ c, toLowerRune tbl (toLowerRune tbl c) = toLowerRune tbl c) (t : Str) :
    normalizeSearchTerm tbl
      ((normalizeSearchTerm tbl t).1 ++ "<".toList ++ (normalizeSearchTerm tbl t).2 ++ ">".toList)
      = normalizeSearchTerm tbl t ∧
    (normalizeSearchTerm tbl (normalizeSearchTerm tbl t).1).1 = (normalizeSearchTerm tbl t).1 := by
  have hfix : ∀ c, (c ∈ (normalizeSearchTerm tbl t).1 ∨ c ∈ (normalizeSearchTerm tbl t).2) →
      toLowerRune tbl c = c := by
    intro c hc
    obtain ⟨d, hd⟩ := mem_normalize_lowered tbl t c hc
    rw [← hd, hlow]
  have hname : trimSpace (normalizeSearchTerm tbl t).1 = (normalizeSearchTerm tbl t).1 := by
    rw [normalize_name_eq]
    exact trimFunc_idem _ _
  constructor
  · have hshape : (normalizeSearchTerm tbl t).1 ++ "<".toList ++ (normalizeSearchTerm tbl t).2
        ++ ">".toList =
        (normalizeSearchTerm tbl t).1 ++ '<' :: ((normalizeSearchTerm tbl t).2 ++ ['>']) := by
      simp
    rw [hshape]
    have hlowered : toLower tbl ((normalizeSearchTerm tbl t).1 ++
        '<' :: ((normalizeSearchTerm tbl t).2 ++ ['>'])) =
        (normalizeSearchTerm tbl t).1 ++ '<' :: ((normalizeSearchTerm tbl t).2 ++ ['>']) := by
      apply toLower_fixed
      intro c hc
      simp only [List.mem_append, List.mem_cons, List.mem_singleton, List.not_mem_nil,
        or_false] at hc
      rcases hc with hc | hc | hc | hc
      · exact hfix c (Or.inl hc)
      · subst hc; rfl
      · exact hfix c (Or.inr hc)
      · subst hc; rfl
    apply Prod.ext
    · rw [normalize_name_eq, trimSpace_name_append, hlowered,
        splitN2_append _ _ _ (lt_not_mem_normalize_name tbl t)]
      exact hname
    · rw [normalize_email_eq, trimSpace_name_append, hlowered,
        splitN2_append _ _ _ (lt_not_mem_normalize_name tbl t)]
      exact trimFunc_append_cut _ _ '>' (by decide) (normalize_email_trimmed tbl t).1
        (normalize_email_trimmed tbl t).2
  · rw [normalize_name_eq tbl (normalizeSearchTerm tbl t).1, hname,
      toLower_fixed tbl _ (fun c hc => hfix c (Or.inl hc)),
      splitN2_of_not_mem _ _ (lt_not_mem_normalize_name tbl t)]
    exact hname

/-- C3 at a concrete term: the normalized form of ` John Doe <J@X.com> `, written back as
a term, normalizes to itself. -/
theorem C3_normalize_idempotent_witness :
    normalizeSearchTerm id "john doe<j@x.com>".toList =
      ("john doe".toList, "j@x.com".toList) := by
  have h := (C3_normalize_idempotent id toLowerRune_id_idem " John Doe <J@X.com> ".toList).1
  have e : normalizeSearchTerm id " John Doe <J@X.com> ".toList =
      ("john doe".toList, "j@x.com".toList) := by decide
  rw [e] at h
  exact h

/-- C4, as stated, fails: on the term `a <>b` the program returns the name `a` and the
email `b`, the specification's definition the name `a ` (with the blank) and the email
`>b`. -/
theorem C4_counterexample :
    normalizeSearchTerm id "a <>b".toList = ("a".toList, "b".toList) ∧
    normalizeSpec id "a <>b".toList = ("a ".toList, ">b".toList) ∧
    (normalizeSearchTerm id "a <>b".toList).1 ≠ (normalizeSpec id "a <>b".toList).1 ∧
    (normalizeSearchTerm id "a <>b".toList).2 ≠ (normalizeSpec id "a <>b".toList).2 := by
  decide

/-- C4, amended. For a case table that maps whitespace to whitespace and nothing else to
whitespace, `normalizeSearchTerm` equals the specification's definition once the name is
trimmed of whitespace after the cut and `>` is removed at both ends of the email:
lower-case and trim the term, cut at the first `<` (email empty without `<`), trim the
name, remove leading and trailing `>` from the email. -/
theorem C4_normalize_refines_amended (tbl : Char → Char)
    (hsp : ∀ c, isSpace (toLowerRune tbl c) = isSpace c) (t : Str) :
    normalizeSearchTerm tbl t = normalizeSpecAmended tbl t := by
  have hterm : toLower tbl (trimSpace t) = trimSpace (t.map (toLowerRune tbl)) := by
    unfold toLower trimSpace
    rw [trimFunc_map _ _ hsp]
  apply Prod.ext
  · rw [normalize_name_eq, hterm, splitN2_fst]
    rfl
  · rw [normalize_email_eq, hterm, splitN2_snd]
    simp only [normalizeSpecAmended]
    split
    · rename_i p hp
      split at hp
      · simp only [Option.some.injEq] at hp
        rw [← hp]
      · simp at hp
    · rename_i hp
      split at hp
      · simp at hp
      · rename_i hmem
        have hd : (trimSpace (t.map (toLowerRune tbl))).dropWhile (fun c => c != '<') = [] := by
          rw [List.dropWhile_eq_nil_iff]
          intro x hx
          have : x ≠ '<' := fun e => hmem (e ▸ hx)
          simpa using this
        rw [hd]
        rfl

/-- C4 amended, at the term of the counterexample. -/
theorem C4_normalize_refines_amended_witness :
    normalizeSpecAmended id "a <>b".toList = ("a".toList, "b".toList) := by
  rw [← C4_normalize_refines_amended id isSpace_toLowerRune_id "a <>b".toList]
  decide

/-- C5. Date gate, for a line before the terminator with at least four tab fields.
`now` is the reading of `time.Now` and the cutoff is `cutoffDate now days`, the instant
of `now.AddDate(0, 0, -days)` as the local zone rules give it.  When the poster matches
and the date parses: with days = 0 the line's number is selected whatever the date; with
days ≠ 0 it is not selected when the date is the cutoff instant, and it is selected when
the date is after the cutoff, for instance one day after it.  When the date does not
parse, the line contributes nothing, for every value of days.  For a reading at the
instant `t` in a location with a fixed offset the cutoff is `t` minus days times 24
hours. -/
theorem C5_date_gate (tbl : Char → Char) (now : Now) (poster : Str) (days : Int)
    (exact : Bool) (pre post : List Str) (line f0 f1 fromField f3 : Str) (more : List Str)
    (hpre : dotCRLF ∉ pre) (hline : line ≠ dotCRLF)
    (hfields : split '\t' line = f0 :: f1 :: fromField :: f3 :: more) :
    (∀ date, posterMatch tbl (normalizeSearchTerm tbl poster).1
        (normalizeSearchTerm tbl poster).2 exact fromField = true →
      parseDate (dateString f3) = some date →
      (days = 0 →
        (getArticleNumbers tbl now (pre ++ line :: post) poster days exact).1 =
          (getArticleNumbers tbl now pre poster days exact).1 ++ [f0] ++
          (getArticleNumbers tbl now post poster days exact).1) ∧
      (days ≠ 0 → date = cutoffDate now days →
        (getArticleNumbers tbl now (pre ++ line :: post) poster days exact).1 =
          (getArticleNumbers tbl now pre poster days exact).1 ++
          (getArticleNumbers tbl now post poster days exact).1) ∧
      (days ≠ 0 → cutoffDate now days < date →
        (getArticleNumbers tbl now (pre ++ line :: post) poster days exact).1 =
          (getArticleNumbers tbl now pre poster days exact).1 ++ [f0] ++
          (getArticleNumbers tbl now post poster days exact).1) ∧
      (days ≠ 0 → date = cutoffDate now days + nsPerDay →
        (getArticleNumbers tbl now (pre ++ line :: post) poster days exact).1 =
          (getArticleNumbers tbl now pre poster days exact).1 ++ [f0] ++
          (getArticleNumbers tbl now post poster days exact).1)) ∧
    (parseDate (dateString f3) = none →
      (getArticleNumbers tbl now (pre ++ line :: post) poster days exact).1 =
        (getArticleNumbers tbl now pre poster days exact).1 ++
        (getArticleNumbers tbl now post poster days exact).1) ∧
    (∀ t, -1000000000 ≤ days → days ≤ 1000000000 →
      cutoffDate (Now.fixed t) days = t - days * nsPerDay) := by
  have key : (getArticleNumbers tbl now (pre ++ line :: post) poster days exact).1 =
      (getArticleNumbers tbl now pre poster days exact).1 ++
      (if posterMatch tbl (normalizeSearchTerm tbl poster).1
          (normalizeSearchTerm tbl poster).2 exact fromField = true then
        match parseDate (dateString f3) with
        | some date => if days = 0 ∨ cutoffDate now days < date then some f0 else none
        | none => none
      else none).toList ++
      (getArticleNumbers tbl now post poster days exact).1 := by
    simp only [getArticleNumbers]
    rw [scanLoop_split _ _ _ _ _ _ _ _ _ hpre hline,
      selectRecord_of_fields _ _ _ _ _ _ _ _ _ _ _ _ hfields]
  refine ⟨fun date hm hd => ⟨?_, ?_, ?_, ?_⟩, ?_, ?_⟩
  · intro h0
    rw [key]
    simp [hm, hd, h0]
  · intro h0 hc
    rw [key]
    simp [hm, hd, h0, hc]
  · intro _ hc
    rw [key]
    simp [hm, hd, hc]
  · intro _ hc
    have hlt : cutoffDate now days < date := by
      rw [hc]
      unfold nsPerDay
      omega
    rw [key]
    simp [hm, hd, hlt]
  · intro hd
    rw [key]
    simp [hd]
  · intro t h1 h2
    unfold cutoffDate Now.fixed wrapInt64 nsPerDay
    simp only
    have hw : (-days + 9223372036854775808) % 18446744073709551616 - 9223372036854775808 =
        -days := by omega
    rw [hw]
    omega

/-- C5 at a concrete block: with days = 2 and the current instant exactly two days after
the date of the sample line, that line (whose poster matches) is not selected. -/
theorem C5_date_gate_witness :
    (getArticleNumbers id (Now.fixed 1704276000000000000) ([] ++ sampleLine :: [dotCRLF])
      "john".toList 2 false).1 = [] :=
  ((C5_date_gate id (Now.fixed 1704276000000000000) "john".toList 2 false [] [dotCRLF] sampleLine
    "105".toList "Hello".toList "John Doe <j@x.com>".toList
    "Mon, 1 Jan 2024 10:00:00 +0000".toList
    ["...".toList, "...".toList, "...".toList, "...\r\n".toList]
    (by decide) (by decide) (by decide)).1 1704103200000000000 (by decide) (by decide)).2.1
    (by decide) (by decide)

/-- C6, as stated, fails: for the response `211 5 100 104 alt.test` the command written
after the group command is `xover 100-104` in lower case, not `XOVER 100-104`; and for
zero-padded numbers in the response the command carries the numbers without padding. -/
theorem C6_counterexample :
    (getArticles id (fun _ => Now.fixed 0) (some "200 ready\r\n211 5 100 104 alt.test\r\n.\r\n".toList)
      ["alt.test".toList] "john".toList 0 false [] []).2 =
      ["group alt.test\r\n".toList, "xover 100-104\r\n".toList, "quit\r\n".toList] ∧
    "xover 100-104\r\n".toList ≠ "XOVER 100-104\r\n".toList ∧
    (getArticles id (fun _ => Now.fixed 0) (some "200 ready\r\n211 5 000100 000104 alt.test\r\n.\r\n".toList)
      ["alt.test".toList] "john".toList 0 false [] []).2 =
      ["group alt.test\r\n".toList, "xover 100-104\r\n".toList, "quit\r\n".toList] := by
  decide

/-- C6, amended. For every response `211 <count> <first> <last> ...` in which first and
last are canonical decimal numerals of numbers below 2^63, the command written right
after the group command is the lower-case `xover <first>-<last>` followed by CRLF. -/
theorem C6_xover_command (tbl : Char → Char) (clock : Nat → Now) (poster : Str) (days : Int)
    (exact : Bool) (k : Nat) (group : Str) (groups : List Str) (conn : Conn) (matched : List Str)
    (cnt tail : Str) (rest : List Str) (a b : Nat)
    (hcnt : cnt ≠ []) (hsp : ∀ x ∈ cnt, isSpace x = false)
    (ha : a < 9223372036854775808) (hb : b < 9223372036854775808)
    (hl : conn.lines = ("211".toList ++ ' ' :: (cnt ++ ' ' :: (Nat.toDigits 10 a ++
      ' ' :: (Nat.toDigits 10 b ++ ' ' :: tail)))) :: rest) :
    ∃ more, (groupLoop tbl clock poster days exact k (group :: groups) conn matched).2.out =
      conn.out ++ ["group ".toList ++ group ++ crlf,
        "xover ".toList ++ Nat.toDigits 10 a ++ "-".toList ++ Nat.toDigits 10 b ++ crlf] ++ more := by
  have hda := toDigits_spec a
  have hdb := toDigits_spec b
  have hf : fields ("211".toList ++ ' ' :: (cnt ++ ' ' :: (Nat.toDigits 10 a ++
      ' ' :: (Nat.toDigits 10 b ++ ' ' :: tail)))) =
      "211".toList :: cnt :: Nat.toDigits 10 a :: Nat.toDigits 10 b :: fields tail := by
    rw [fields_word _ _ ' ' (by decide) (by decide) (by decide),
      fields_word _ _ ' ' (by decide) hsp hcnt,
      fields_word _ _ ' ' (by decide) (fun x hx => isSpace_of_digit x (hda.2.1 x hx)) hda.1,
      fields_word _ _ ' ' (by decide) (fun x hx => isSpace_of_digit x (hdb.2.1 x hx)) hdb.1]
  have h211 : hasPrefix ("211".toList ++ ' ' :: (cnt ++ ' ' :: (Nat.toDigits 10 a ++
      ' ' :: (Nat.toDigits 10 b ++ ' ' :: tail)))) "211 ".toList = true := by
    simp [hasPrefix, List.isPrefixOf]
  obtain ⟨more, hmore⟩ := groupLoop_step_out tbl clock poster days exact k group groups conn
    matched _ rest _ _ _ _ _ hl h211 hf
  refine ⟨more, ?_⟩
  rw [← hmore, atoi_toDigits a ha, atoi_toDigits b hb]
  simp [xoverCommand, formatInt_natCast]

/-- C6 amended, at the specification's scenario. -/
theorem C6_xover_command_witness :
    ∃ more, (groupLoop id (fun _ => Now.fixed 0) "john".toList 0 false 0 ["alt.test".toList]
      ⟨["211 5 100 104 alt.test\r\n".toList, dotCRLF], []⟩ []).2.out =
      [] ++ ["group ".toList ++ "alt.test".toList ++ crlf,
        "xover ".toList ++ Nat.toDigits 10 100 ++ "-".toList ++ Nat.toDigits 10 104 ++ crlf] ++ more :=
  C6_xover_command id (fun _ => Now.fixed 0) "john".toList 0 false 0 "alt.test".toList []
    ⟨["211 5 100 104 alt.test\r\n".toList, dotCRLF], []⟩ [] "5".toList "alt.test\r\n".toList
    [dotCRLF] 100 104 (by decide) (by decide) (by decide) (by decide) (by decide)

/-! ### The value returned by `strconv.Atoi` -/

theorem parseUintLoop_spec (s : Str) (acc : Nat) (hacc : acc ≤ maxUint64) :
    parseUintLoop s acc =
      if maxUint64 < (s.takeWhile isDigitRune).foldl (fun n c => n * 10 + (c.toNat - 48)) acc
      then (maxUint64, some NumErr.outOfRange)
      else if s.takeWhile isDigitRune ≠ s then (0, some NumErr.badSyntax)
      else ((s.takeWhile isDigitRune).foldl (fun n c => n * 10 + (c.toNat - 48)) acc, none) := by
  induction s generalizing acc with
  | nil =>
    have : ¬ maxUint64 < acc := by omega
    simp [parseUintLoop, this]
  | cons c cs ih =>
    cases hd : digitVal c with
    | none =>
      have hdig : isDigitRune c = false := by simp [isDigitRune, hd]
      have : ¬ maxUint64 < acc := by omega
      simp [parseUintLoop, hd, List.takeWhile_cons, hdig, this]
    | some d =>
      have hdig : isDigitRune c = true := by simp [isDigitRune, hd]
      have hd2 := digitVal_eq_some c d hd
      simp only [parseUintLoop, hd, List.takeWhile_cons, hdig, if_true, List.foldl_cons]
      have hge := foldl_digits_ge (cs.takeWhile isDigitRune) (acc * 10 + (c.toNat - 48))
      by_cases h1 : maxUint64 / 10 + 1 ≤ acc
      · have hbig : maxUint64 < (cs.takeWhile isDigitRune).foldl
            (fun n c => n * 10 + (c.toNat - 48)) (acc * 10 + (c.toNat - 48)) := by
          unfold maxUint64 at h1 ⊢
          omega
        simp only [if_pos h1, if_pos hbig]
      · simp only [if_neg h1]
        by_cases h2 : maxUint64 < acc * 10 + d
        · have hbig : maxUint64 < (cs.takeWhile isDigitRune).foldl
              (fun n c => n * 10 + (c.toNat - 48)) (acc * 10 + (c.toNat - 48)) := by
            rw [hd2] at h2
            omega
          simp only [if_pos h2, if_pos hbig]
        · simp only [if_neg h2]
          rw [hd2] at h2 ⊢
          rw [ih _ (by omega)]
          simp

theorem atoiFast_spec (s : Str) (acc : Nat) :
    atoiFast s acc =
      if s.takeWhile isDigitRune = s
      then some (s.foldl (fun n c => n * 10 + (c.toNat - 48)) acc) else none := by
  induction s generalizing acc with
  | nil => simp [atoiFast]
  | cons c cs ih =>
    cases hd : digitVal c with
    | none =>
      have hdig : isDigitRune c = false := by simp [isDigitRune, hd]
      simp [atoiFast, hd, List.takeWhile_cons, hdig]
    | some d =>
      have hdig : isDigitRune c = true := by simp [isDigitRune, hd]
      have hd2 := digitVal_eq_some c d hd
      simp only [atoiFast, hd, List.takeWhile_cons, hdig, if_true, List.foldl_cons, ih, hd2]
      simp

theorem foldl_digits_lt (run : Str) (acc : Nat) (h : ∀ c ∈ run, isDigitRune c = true) :
    run.foldl (fun n c => n * 10 + (c.toNat - 48)) acc < (acc + 1) * 10 ^ run.length := by
  induction run generalizing acc with
  | nil => simp
  | cons c cs ih =>
    have hc : isDigitRune c = true := h c (by simp)
    have hle : c.toNat - 48 ≤ 9 := by
      simp only [isDigitRune, digitVal] at hc
      split at hc
      · omega
      · simp at hc
    have h1 := ih (acc * 10 + (c.toNat - 48)) (fun x hx => h x (by simp [hx]))
    simp only [List.foldl_cons, List.length_cons]
    calc _ < (acc * 10 + (c.toNat - 48) + 1) * 10 ^ cs.length := h1
      _ ≤ ((acc + 1) * 10) * 10 ^ cs.length := Nat.mul_le_mul_right _ (by omega)
      _ = (acc + 1) * 10 ^ (cs.length + 1) := by ring

theorem digitsToNat_short (body : Str) (h : body.length < 19) :
    digitsToNat (body.takeWhile isDigitRune) < 1000000000000000000 := by
  have h1 := foldl_digits_lt (body.takeWhile isDigitRune) 0
    (fun c hc => List.mem_takeWhile_imp hc)
  have h2 : (body.takeWhile isDigitRune).length ≤ 18 :=
    le_trans (List.takeWhile_sublist _).length_le (by omega)
  have h3 : 10 ^ (body.takeWhile isDigitRune).length ≤ 10 ^ 18 :=
    Nat.pow_le_pow_right (by decide) h2
  unfold digitsToNat
  omega
theorem parseUint_spec (body : Str) :
    parseUint body =
      if maxUint64 < digitsToNat (body.takeWhile isDigitRune)
      then (maxUint64, some NumErr.outOfRange)
      else if body = [] ∨ body.takeWhile isDigitRune ≠ body then (0, some NumErr.badSyntax)
      else (digitsToNat (body.takeWhile isDigitRune), none) := by
  cases body with
  | nil => simp [parseUint, digitsToNat, maxUint64]
  | cons c cs =>
    simp only [parseUint]
    rw [parseUintLoop_spec _ 0 (by unfold maxUint64; omega)]
    simp [digitsToNat]

/-- The part of `ParseInt` after the sign, for the body and the sign flag. -/
theorem parseInt_body_value (body : Str) (neg : Bool) :
    (match parseUint body with
      | (_, some NumErr.badSyntax) => ((0 : Int), some NumErr.badSyntax)
      | (un, _) =>
        if !neg && 9223372036854775808 ≤ un then (9223372036854775807, some NumErr.outOfRange)
        else if neg && 9223372036854775808 < un then
          (-9223372036854775808, some NumErr.outOfRange)
        else (if neg then -(un : Int) else (un : Int), none)).1 =
      (if maxUint64 < digitsToNat (body.takeWhile isDigitRune) then
        (if neg then -9223372036854775808 else 9223372036854775807 : Int)
      else if body = [] ∨ body.takeWhile isDigitRune ≠ body then 0
      else if neg then
        (if 9223372036854775808 < digitsToNat (body.takeWhile isDigitRune) then
          (if neg then -9223372036854775808 else 9223372036854775807 : Int)
        else -(digitsToNat (body.takeWhile isDigitRune) : Int))
      else (if 9223372036854775808 ≤ digitsToNat (body.takeWhile isDigitRune) then
          (if neg then -9223372036854775808 else 9223372036854775807 : Int)
        else (digitsToNat (body.takeWhile isDigitRune) : Int))) := by
  rw [parseUint_spec]
  by_cases h1 : maxUint64 < digitsToNat (body.takeWhile isDigitRune)
  · simp only [if_pos h1]
    cases neg <;> simp [maxUint64]
  · simp only [if_neg h1]
    by_cases h2 : body = [] ∨ body.takeWhile isDigitRune ≠ body
    · simp only [if_pos h2]
    · simp only [if_neg h2]
      cases neg
      · by_cases h3 : 9223372036854775808 ≤ digitsToNat (body.takeWhile isDigitRune)
        · simp [h3]
        · simp [h3]
      · by_cases h3 : 9223372036854775808 < digitsToNat (body.takeWhile isDigitRune)
        · simp [h3]
        · simp [h3]

/-- The fast path of `Atoi` after the sign, for a body of fewer than 19 runes. -/
theorem atoi_body_value (body : Str) (neg : Bool) (hlen : body.length < 19) :
    (if body = [] then ((0 : Int), some NumErr.badSyntax)
      else
        match atoiFast body 0 with
        | none => (0, some NumErr.badSyntax)
        | some n => (if neg then -(n : Int) else (n : Int), none)).1 =
      (if maxUint64 < digitsToNat (body.takeWhile isDigitRune) then
        (if neg then -9223372036854775808 else 9223372036854775807 : Int)
      else if body = [] ∨ body.takeWhile isDigitRune ≠ body then 0
      else if neg then
        (if 9223372036854775808 < digitsToNat (body.takeWhile isDigitRune) then
          (if neg then -9223372036854775808 else 9223372036854775807 : Int)
        else -(digitsToNat (body.takeWhile isDigitRune) : Int))
      else (if 9223372036854775808 ≤ digitsToNat (body.takeWhile isDigitRune) then
          (if neg then -9223372036854775808 else 9223372036854775807 : Int)
        else (digitsToNat (body.takeWhile isDigitRune) : Int))) := by
  have hshort := digitsToNat_short body hlen
  have h1 : ¬ maxUint64 < digitsToNat (body.takeWhile isDigitRune) := by
    unfold maxUint64
    omega
  have h3 : ¬ 9223372036854775808 ≤ digitsToNat (body.takeWhile isDigitRune) := by omega
  have h4 : ¬ 9223372036854775808 < digitsToNat (body.takeWhile isDigitRune) := by omega
  simp only [if_neg h1, if_neg h3, if_neg h4]
  by_cases hb : body = []
  · simp [hb]
  · rw [atoiFast_spec]
    by_cases hr : body.takeWhile isDigitRune = body
    · have hv : body.foldl (fun n c => n * 10 + (c.toNat - 48)) 0 =
          digitsToNat (body.takeWhile isDigitRune) := by
        rw [hr]
        rfl
      simp only [if_neg hb, if_pos hr, hv, hb, false_or, not_true_eq_false, if_false]
      rw [if_neg (not_not.mpr hr)]
    · simp [hb, hr]

/-- The value `strconv.Atoi` returns, described by the text of its argument. -/
theorem atoi_value (s : Str) : (atoi s).1 = lenientValue s := by
  cases s with
  | nil => simp [atoi, parseInt, lenientValue, digitsToNat, maxUint64]
  | cons c cs =>
    by_cases hm : c = '-'
    · subst hm
      have hspec : lenientValue ('-' :: cs) =
          (if maxUint64 < digitsToNat (cs.takeWhile isDigitRune) then
            (if true then -9223372036854775808 else 9223372036854775807 : Int)
          else if cs = [] ∨ cs.takeWhile isDigitRune ≠ cs then 0
          else if true then
            (if 9223372036854775808 < digitsToNat (cs.takeWhile isDigitRune) then
              (if true then -9223372036854775808 else 9223372036854775807 : Int)
            else -(digitsToNat (cs.takeWhile isDigitRune) : Int))
          else (if 9223372036854775808 ≤ digitsToNat (cs.takeWhile isDigitRune) then
              (if true then -9223372036854775808 else 9223372036854775807 : Int)
            else (digitsToNat (cs.takeWhile isDigitRune) : Int))) := by
        simp [lenientValue]
      rw [hspec]
      by_cases hlen : ('-' :: cs).length < 19
      · have hl2 : cs.length < 19 := by
          simp only [List.length_cons] at hlen
          omega
        have := atoi_body_value cs true hl2
        simp only [atoi, if_pos hlen, true_or, if_true]
        exact this
      · have := parseInt_body_value cs true
        simp only [atoi, if_neg hlen, parseInt, or_true, if_true, decide_True]
        exact this
    · by_cases hp : c = '+'
      · subst hp
        have hspec : lenientValue ('+' :: cs) =
            (if maxUint64 < digitsToNat (cs.takeWhile isDigitRune) then
              (if false then -9223372036854775808 else 9223372036854775807 : Int)
            else if cs = [] ∨ cs.takeWhile isDigitRune ≠ cs then 0
            else if false then
              (if 9223372036854775808 < digitsToNat (cs.takeWhile isDigitRune) then
                (if false then -9223372036854775808 else 9223372036854775807 : Int)
              else -(digitsToNat (cs.takeWhile isDigitRune) : Int))
            else (if 9223372036854775808 ≤ digitsToNat (cs.takeWhile isDigitRune) then
                (if false then -9223372036854775808 else 9223372036854775807 : Int)
              else (digitsToNat (cs.takeWhile isDigitRune) : Int))) := by
          simp [lenientValue]
        rw [hspec]
        by_cases hlen : ('+' :: cs).length < 19
        · have hl2 : cs.length < 19 := by
            simp only [List.length_cons] at hlen
            omega
          have := atoi_body_value cs false hl2
          simp only [atoi, if_pos hlen, or_true, if_true]
          simpa using this
        · have := parseInt_body_value cs false
          simp only [atoi, if_neg hlen, parseInt, true_or, if_true]
          simpa using this
      · have hspec : lenientValue (c :: cs) =
            (if maxUint64 < digitsToNat ((c :: cs).takeWhile isDigitRune) then
              (if false then -9223372036854775808 else 9223372036854775807 : Int)
            else if c :: cs = [] ∨ (c :: cs).takeWhile isDigitRune ≠ c :: cs then 0
            else if false then
              (if 9223372036854775808 < digitsToNat ((c :: cs).takeWhile isDigitRune) then
                (if false then -9223372036854775808 else 9223372036854775807 : Int)
              else -(digitsToNat ((c :: cs).takeWhile isDigitRune) : Int))
            else (if 9223372036854775808 ≤ digitsToNat ((c :: cs).takeWhile isDigitRune) then
                (if false then -9223372036854775808 else 9223372036854775807 : Int)
              else (digitsToNat ((c :: cs).takeWhile isDigitRune) : Int))) := by
          simp [lenientValue, hm, hp]
        rw [hspec]
        by_cases hlen : (c :: cs).length < 19
        · have := atoi_body_value (c :: cs) false hlen
          simp only [atoi, if_pos hlen, hm, hp, or_self, if_false]
          simpa [hm] using this
        · have := parseInt_body_value (c :: cs) false
          simp only [atoi, if_neg hlen, parseInt, hm, hp, or_self, if_false]
          simpa [hm] using this
/-- C7, as stated, fails: the third field `99999999999999999999` of the response does not
parse (range error), yet the first article number used in the range command is
9223372036854775807, not 0. -/
theorem C7_counterexample :
    (atoi "99999999999999999999".toList).2 = some NumErr.outOfRange ∧
    (getArticles id (fun _ => Now.fixed 0)
      (some "200 ready\r\n211 5 99999999999999999999 104 alt.test\r\n.\r\n".toList)
      ["alt.test".toList] "john".toList 0 false [] []).2 =
      ["group alt.test\r\n".toList, "xover 9223372036854775807-104\r\n".toList,
       "quit\r\n".toList] := by
  decide

/-- C7, amended. For every response that starts with `211 ` and has at least four fields
the run does not stop at the numbers: the range command is written, with the value that
`strconv.Atoi` returns for the third and for the fourth field.  That value is
`lenientValue` of the field's text: with the field read as an optional sign followed by a
body, the bound of the sign (2^63-1, or -2^63 after a minus sign) when the leading digit
run of the body denotes a number above 2^64-1, whatever follows it; otherwise 0 when the
body is empty or holds something that is not a digit; otherwise the number itself, or the
nearest bound when the number is outside the range of a 64-bit `int`. -/
theorem C7_lenient_range (tbl : Char → Char) (clock : Nat → Now) (poster : Str) (days : Int)
    (exact : Bool) (k : Nat) (group : Str) (groups : List Str) (conn : Conn) (matched : List Str)
    (resp : Str) (rest : List Str) (p0 p1 p2 p3 : Str) (more : List Str)
    (hl : conn.lines = resp :: rest) (h211 : hasPrefix resp "211 ".toList = true)
    (hf : fields resp = p0 :: p1 :: p2 :: p3 :: more) :
    (conn.out ++ ["group ".toList ++ group ++ crlf] ++
        ["xover ".toList ++ formatInt (lenientValue p2) ++ "-".toList ++
          formatInt (lenientValue p3) ++ crlf]
      <+: (groupLoop tbl clock poster days exact k (group :: groups) conn matched).2.out) ∧
    (∀ s, (atoi s).1 = lenientValue s) ∧
    lenientValue [] = 0 ∧
    lenientValue "+".toList = 0 ∧
    lenientValue "-".toList = 0 ∧
    lenientValue "abc".toList = 0 ∧
    lenientValue "12x".toList = 0 ∧
    lenientValue "-0012".toList = -12 ∧
    lenientValue "9223372036854775807".toList = 9223372036854775807 ∧
    lenientValue "9223372036854775808".toList = 9223372036854775807 ∧
    lenientValue "-9223372036854775808".toList = -9223372036854775808 ∧
    lenientValue "99999999999999999999".toList = 9223372036854775807 ∧
    lenientValue "99999999999999999999x".toList = 9223372036854775807 ∧
    lenientValue "-99999999999999999999".toList = -9223372036854775808 := by
  refine ⟨?_, atoi_value, by decide, by decide, by decide, by decide, by decide, by decide,
    by decide, by decide, by decide, by decide, by decide, by decide⟩
  have h := groupLoop_step_out tbl clock poster days exact k group groups conn matched resp
    rest p0 p1 p2 p3 more hl h211 hf
  rw [atoi_value, atoi_value] at h
  exact h

/-- C7 amended, at a response whose third field is a long digit run followed by a
letter: the range starts at 2^63-1, and it ends at 0 for the fourth field `abc`. -/
theorem C7_lenient_range_witness :
    [] ++ ["group ".toList ++ "alt.test".toList ++ crlf] ++
        ["xover ".toList ++ formatInt (lenientValue "99999999999999999999x".toList) ++
          "-".toList ++ formatInt (lenientValue "abc".toList) ++ crlf]
      <+: (groupLoop id (fun _ => Now.fixed 0) "john".toList 0 false 0 ["alt.test".toList]
        ⟨["211 5 99999999999999999999x abc alt.test\r\n".toList, dotCRLF], []⟩ []).2.out :=
  (C7_lenient_range id (fun _ => Now.fixed 0) "john".toList 0 false 0 "alt.test".toList []
    ⟨["211 5 99999999999999999999x abc alt.test\r\n".toList, dotCRLF], []⟩ []
    "211 5 99999999999999999999x abc alt.test\r\n".toList
    [dotCRLF] "211".toList "5".toList "99999999999999999999x".toList "abc".toList
    ["alt.test".toList] (by decide) (by decide) (by decide)).1

/-- C9. Article fetch is strict.  Every article read consumes one terminator line, so
when the lines the reader still delivers hold fewer terminator lines than there are
selected articles left to fetch, some article body ends without its terminator: the
loop over the articles then returns the read error and no list, whatever articles
`matched` were fetched before, and so does the loop over the groups (hence the run). -/
theorem C9_fetch_strict (tbl : Char → Char) (clock : Nat → Now) (poster : Str) (days : Int)
    (exact : Bool) (k : Nat) (group : Str) (groups : List Str) (conn : Conn) (matched : List Str) :
    (∀ nums, conn.lines.count dotCRLF < nums.length →
      (fetchLoop group nums conn matched).1 = Except.error GaError.read) ∧
    (∀ resp rest p0 p1 p2 p3 more, conn.lines = resp :: rest →
      hasPrefix resp "211 ".toList = true → fields resp = p0 :: p1 :: p2 :: p3 :: more →
      (getArticleNumbers tbl (clock k) rest poster days exact).2.count dotCRLF <
        (getArticleNumbers tbl (clock k) rest poster days exact).1.length →
      (groupLoop tbl clock poster days exact k (group :: groups) conn matched).1 =
        Except.error GaError.read) := by
  refine ⟨fun nums h => fetchLoop_error group nums conn matched h, ?_⟩
  intro resp rest p0 p1 p2 p3 more hl h211 hf hcount
  rw [groupLoop_step tbl clock poster days exact k group groups conn matched resp rest p0 p1
    p2 p3 more hl h211 hf]
  have herr := fetchLoop_error group
    (getArticleNumbers tbl (clock k) rest poster days exact).1
    ⟨(getArticleNumbers tbl (clock k) rest poster days exact).2,
      conn.out ++ ["group ".toList ++ group ++ crlf] ++
        [xoverCommand (atoi p2).1 (atoi p3).1]⟩ matched hcount
  split
  · rename_i e c hfe
    rw [hfe] at herr
    exact herr
  · rename_i m c hfe
    rw [hfe] at herr
    simp at herr

/-- C9 at a concrete run: the first article arrives completely, the stream ends inside the
second one, and `getArticles` returns the read error instead of the first article. -/
theorem C9_fetch_strict_witness :
    (getArticles id (fun _ => Now.fixed 0) (some truncatedRun) ["alt.test".toList] "john".toList 0 false
      [] []).1 = Except.error GaError.read :=
  (C9_fetch_strict id (fun _ => Now.fixed 0) "john".toList 0 false 0 "alt.test".toList []
    ⟨(splitLines truncatedRun).tail, []⟩ []).2
    "211 2 105 106 alt.test\r\n".toList ((splitLines truncatedRun).tail).tail
    "211".toList "2".toList "105".toList "106".toList ["alt.test".toList]
    (by decide) (by decide) (by decide) (by decide)

/-- C10. Multi-line framing.  For a block `pre` without terminator line followed by the
terminator and any further lines `post`: `getGroups` and `getArticleNumbers` return what
the lines of `pre` alone give (the terminator contributes no entry), a different `post`
does not change the result, and the reader is left right after the terminator.  A line
other than dot-CRLF never ends the block: it is processed like any line and the loop
goes on, in particular for a dot followed by LF only and for a line that starts with a
dot. -/
theorem C10_multiline_framing (tbl : Char → Char) (now : Now) (poster : Str) (days : Int)
    (exact : Bool) (pre post post2 : List Str) (hpre : dotCRLF ∉ pre) :
    (getGroupsLoop (pre ++ dotCRLF :: post) = pre.filterMap (fun l => (fields l).head?) ∧
     getGroupsLoop (pre ++ dotCRLF :: post) = getGroupsLoop (pre ++ dotCRLF :: post2)) ∧
    (getArticleNumbers tbl now (pre ++ dotCRLF :: post) poster days exact =
      (pre.filterMap (selectRecord tbl (cutoffDate now days) (normalizeSearchTerm tbl poster).1
        (normalizeSearchTerm tbl poster).2 days exact), post) ∧
     (getArticleNumbers tbl now (pre ++ dotCRLF :: post) poster days exact).1 =
      (getArticleNumbers tbl now (pre ++ dotCRLF :: post2) poster days exact).1) ∧
    (∀ line rest, line ≠ dotCRLF →
      getGroupsLoop (line :: rest) = (fields line).head?.toList ++ getGroupsLoop rest ∧
      (getArticleNumbers tbl now (line :: rest) poster days exact).1 =
        (selectRecord tbl (cutoffDate now days) (normalizeSearchTerm tbl poster).1
          (normalizeSearchTerm tbl poster).2 days exact line).toList ++
        (getArticleNumbers tbl now rest poster days exact).1) ∧
    (getGroups (some "a.b 1 2 y\r\n.\n.. z\r\n.x\r\n.\r\nlate 1 2 y\r\n".toList) "*".toList
      [] []).1 = Except.ok ["a.b".toList, ".".toList, "..".toList, ".x".toList] := by
  have hg : ∀ p, getGroupsLoop (pre ++ dotCRLF :: p) =
      pre.filterMap (fun l => (fields l).head?) := by
    intro p
    rw [getGroupsLoop_eq, takeWhile_ne_terminated _ _ hpre]
  have ha : ∀ p, getArticleNumbers tbl now (pre ++ dotCRLF :: p) poster days exact =
      (pre.filterMap (selectRecord tbl (cutoffDate now days) (normalizeSearchTerm tbl poster).1
        (normalizeSearchTerm tbl poster).2 days exact), p) := by
    intro p
    apply Prod.ext
    · simp only [getArticleNumbers, scanLoop_fst, takeWhile_ne_terminated _ _ hpre]
    · simp only [getArticleNumbers, scanLoop_snd, dropWhile_ne_terminated _ _ hpre]
      rfl
  refine ⟨⟨hg post, by rw [hg post, hg post2]⟩, ⟨ha post, by rw [ha post, ha post2]⟩, ?_, ?_⟩
  · intro line rest hline
    constructor
    · simp only [getGroupsLoop, if_neg hline]
      cases fields line <;> simp
    · simp only [getArticleNumbers, scanLoop, if_neg hline]
      cases selectRecord tbl (cutoffDate now days) (normalizeSearchTerm tbl poster).1
        (normalizeSearchTerm tbl poster).2 days exact line <;> simp
  · rfl

/-- C10 at a concrete block: the lines after the terminator are not looked at, while a
dot with LF only before it is an ordinary line (it even yields the group name `.`). -/
theorem C10_multiline_framing_witness :
    getGroupsLoop (["a.b 1 2 y\r\n".toList, ".\n".toList] ++ dotCRLF :: ["late 1 2 y\r\n".toList])
      = ["a.b".toList, ".".toList] :=
  (C10_multiline_framing id (Now.fixed 0) [] 0 false ["a.b 1 2 y\r\n".toList, ".\n".toList]
    ["late 1 2 y\r\n".toList] [] (by decide)).1.1.trans (by decide)

/-- C11. `authenticateNNTP` returns no error exactly when the reader delivers two lines,
the first starting with `381` and the second with `281`.  When the first line does not
start with `381` the error is `unexpected response to USER` and nothing but the
`AUTHINFO USER` command has been written (the password is not sent); when the first
starts with `381` and the second does not start with `281` the error is
`authentication failed`. -/
theorem C11_authenticate (conn : Conn) (username password : Str) :
    ((authenticateNNTP conn username password).1 = none ↔
      ∃ r1 r2 rest, conn.lines = r1 :: r2 :: rest ∧ hasPrefix r1 "381".toList = true ∧
        hasPrefix r2 "281".toList = true) ∧
    (∀ r1 rest, conn.lines = r1 :: rest → hasPrefix r1 "381".toList = false →
      authenticateNNTP conn username password =
        (some (GaError.unexpectedUser r1),
          ⟨rest, conn.out ++ ["AUTHINFO USER ".toList ++ username ++ crlf]⟩) ∧
      (GaError.unexpectedUser r1).text = some ("unexpected response to USER: ".toList ++ r1)) ∧
    (∀ r1 r2 rest, conn.lines = r1 :: r2 :: rest → hasPrefix r1 "381".toList = true →
      hasPrefix r2 "281".toList = false →
      authenticateNNTP conn username password =
        (some (GaError.authFailed r2),
          ⟨rest, conn.out ++ ["AUTHINFO USER ".toList ++ username ++ crlf] ++
            ["AUTHINFO PASS ".toList ++ password ++ crlf]⟩) ∧
      (GaError.authFailed r2).text = some ("authentication failed: ".toList ++ r2)) := by
  refine ⟨?_, ?_, ?_⟩
  · constructor
    · intro h
      simp only [authenticateNNTP, Conn.write] at h
      cases hl : conn.lines with
      | nil => simp [hl] at h
      | cons r1 t =>
        simp only [hl] at h
        by_cases h1 : hasPrefix r1 "381".toList = true
        · simp only [h1, Bool.not_true, Bool.false_eq_true, if_false] at h
          cases t with
          | nil => simp at h
          | cons r2 rest =>
            simp only at h
            by_cases h2 : hasPrefix r2 "281".toList = true
            · exact ⟨r1, r2, rest, rfl, h1, h2⟩
            · have h2f : hasPrefix r2 "281".toList = false := by simpa using h2
              simp only [h2f, Bool.not_false, if_true] at h
              simp at h
        · have h1f : hasPrefix r1 "381".toList = false := by simpa using h1
          simp only [h1f, Bool.not_false, if_true] at h
          simp at h
    · rintro ⟨r1, r2, rest, hl, h1, h2⟩
      simp only [authenticateNNTP, Conn.write, hl, h1, h2, Bool.not_true, Bool.false_eq_true,
        if_false]
  · intro r1 rest hl h1
    refine ⟨?_, rfl⟩
    simp only [authenticateNNTP, Conn.write, hl, h1, Bool.not_false, if_true]
  · intro r1 r2 rest hl h1 h2
    refine ⟨?_, rfl⟩
    simp only [authenticateNNTP, Conn.write, hl, h1, h2, Bool.not_true, Bool.not_false,
      Bool.false_eq_true, if_false, if_true]

/-- C11 at a concrete connection: the server answers `481` to the user name, the
password `secret` is never written. -/
theorem C11_authenticate_witness :
    authenticateNNTP ⟨["481 no\r\n".toList, "281 ok\r\n".toList], []⟩ "joe".toList
      "secret".toList =
      (some (GaError.unexpectedUser "481 no\r\n".toList),
        ⟨["281 ok\r\n".toList], [] ++ ["AUTHINFO USER ".toList ++ "joe".toList ++ crlf]⟩) :=
  ((C11_authenticate ⟨["481 no\r\n".toList, "281 ok\r\n".toList], []⟩ "joe".toList
    "secret".toList).2.1 "481 no\r\n".toList ["281 ok\r\n".toList] rfl (by decide)).1

/-- C12. A response that starts with `211 ` but has fewer than four fields is fatal: the
loop over the groups returns the error `unexpected group response` and no list, whatever
was matched before; the group command is the last thing written (no range command, no
article command, no command for a later group, no `quit`). -/
theorem C12_malformed_211 (tbl : Char → Char) (clock : Nat → Now) (poster : Str) (days : Int)
    (exact : Bool) (k : Nat) (group : Str) (groups : List Str) (conn : Conn)
    (matched : List Str) (resp : Str) (rest : List Str)
    (hl : conn.lines = resp :: rest) (h211 : hasPrefix resp "211 ".toList = true)
    (hf : (fields resp).length < 4) :
    groupLoop tbl clock poster days exact k (group :: groups) conn matched =
      (Except.error (GaError.unexpectedGroup resp),
        ⟨rest, conn.out ++ ["group ".toList ++ group ++ crlf]⟩) ∧
    (GaError.unexpectedGroup resp).text = some ("unexpected group response: ".toList ++ resp) := by
  refine ⟨?_, rfl⟩
  rcases hfs : fields resp with _ | ⟨p0, _ | ⟨p1, _ | ⟨p2, _ | ⟨p3, more⟩⟩⟩⟩
  · simp only [groupLoop, Conn.write, hl, h211, hfs, Bool.not_true, Bool.false_eq_true, if_false]
  · simp only [groupLoop, Conn.write, hl, h211, hfs, Bool.not_true, Bool.false_eq_true, if_false]
  · simp only [groupLoop, Conn.write, hl, h211, hfs, Bool.not_true, Bool.false_eq_true, if_false]
  · simp only [groupLoop, Conn.write, hl, h211, hfs, Bool.not_true, Bool.false_eq_true, if_false]
  · rw [hfs] at hf
    simp only [List.length_cons] at hf
    omega

/-- C12 at a concrete run: the second group answers `211 5 100`, and the articles of the
first group are lost with the error. -/
theorem C12_malformed_211_witness :
    groupLoop id (fun _ => Now.fixed 0) "john".toList 0 false 1 ["b".toList, "c".toList]
      ⟨["211 5 100\r\n".toList, "211 1 1 1 c\r\n".toList], ["group a\r\n".toList]⟩
      ["--- Article a:1 ---\r\nx\r\n".toList] =
      (Except.error (GaError.unexpectedGroup "211 5 100\r\n".toList),
        ⟨["211 1 1 1 c\r\n".toList],
          ["group a\r\n".toList] ++ ["group ".toList ++ "b".toList ++ crlf]⟩) :=
  (C12_malformed_211 id (fun _ => Now.fixed 0) "john".toList 0 false 1 "b".toList ["c".toList]
    ⟨["211 5 100\r\n".toList, "211 1 1 1 c\r\n".toList], ["group a\r\n".toList]⟩
    ["--- Article a:1 ---\r\nx\r\n".toList] "211 5 100\r\n".toList
    ["211 1 1 1 c\r\n".toList] rfl (by decide) (by decide)).1

theorem fetchLoop_out_indep (group : Str) (nums lines o1 o2 matched : List Str) :
    (fetchLoop group nums ⟨lines, o1⟩ matched).1 = (fetchLoop group nums ⟨lines, o2⟩ matched).1 ∧
    (fetchLoop group nums ⟨lines, o1⟩ matched).2.lines =
      (fetchLoop group nums ⟨lines, o2⟩ matched).2.lines := by
  induction nums generalizing lines o1 o2 matched with
  | nil => simp [fetchLoop]
  | cons num nums ih =>
    simp only [fetchLoop, Conn.write]
    cases hr : readArticleBody lines with
    | none => simp
    | some pr =>
      obtain ⟨content, rest⟩ := pr
      exact ih rest _ _ _

theorem groupLoop_out_indep (tbl : Char → Char) (clock : Nat → Now) (poster : Str)
    (days : Int) (exact : Bool) (k : Nat) (groups lines o1 o2 matched : List Str) :
    (groupLoop tbl clock poster days exact k groups ⟨lines, o1⟩ matched).1 =
      (groupLoop tbl clock poster days exact k groups ⟨lines, o2⟩ matched).1 := by
  induction groups generalizing k lines o1 o2 matched with
  | nil => simp [groupLoop, Conn.write]
  | cons g gs ih =>
    simp only [groupLoop, Conn.write]
    cases lines with
    | nil => simp
    | cons resp rest =>
      simp only
      by_cases h211 : hasPrefix resp "211 ".toList = true
      · simp only [h211, Bool.not_true, Bool.false_eq_true, if_false]
        rcases hfs : fields resp with _ | ⟨p0, _ | ⟨p1, _ | ⟨p2, _ | ⟨p3, more⟩⟩⟩⟩
        · rfl
        · rfl
        · rfl
        · rfl
        · simp only
          have hind := fetchLoop_out_indep g
            (getArticleNumbers tbl (clock k) rest poster days exact).1
            (getArticleNumbers tbl (clock k) rest poster days exact).2
            (o1 ++ ["group ".toList ++ g ++ crlf] ++ [xoverCommand (atoi p2).1 (atoi p3).1])
            (o2 ++ ["group ".toList ++ g ++ crlf] ++ [xoverCommand (atoi p2).1 (atoi p3).1])
            matched
          rcases hF1 : fetchLoop g (getArticleNumbers tbl (clock k) rest poster days exact).1
            ⟨(getArticleNumbers tbl (clock k) rest poster days exact).2,
              o1 ++ ["group ".toList ++ g ++ crlf] ++ [xoverCommand (atoi p2).1 (atoi p3).1]⟩
            matched with ⟨r1, c1⟩
          rcases hF2 : fetchLoop g (getArticleNumbers tbl (clock k) rest poster days exact).1
            ⟨(getArticleNumbers tbl (clock k) rest poster days exact).2,
              o2 ++ ["group ".toList ++ g ++ crlf] ++ [xoverCommand (atoi p2).1 (atoi p3).1]⟩
            matched with ⟨r2, c2⟩
          rw [hF1, hF2] at hind
          obtain ⟨hr, hc⟩ := hind
          simp only at hr hc
          subst hr
          obtain ⟨l1, out1⟩ := c1
          obtain ⟨l2, out2⟩ := c2
          simp only at hc
          subst hc
          cases r1 with
          | error e => rfl
          | ok m => exact ih _ _ _ _ _
      · have h211f : hasPrefix resp "211 ".toList = false := by simpa using h211
        simp only [h211f, Bool.not_false, if_true]
        exact ih _ _ _ _ _

/-- C13. A group whose response line does not start with `211 ` is skipped: after the
group command the loop goes on with the next group (or the final `quit`), so no range
command and no article command is written for it and it adds no article; the result is
that of the run over the remaining groups on the lines after this response, the same as
if the group had not been in the list. -/
theorem C13_unusable_group_skipped (tbl : Char → Char) (clock : Nat → Now) (poster : Str)
    (days : Int) (exact : Bool) (k : Nat) (group : Str) (groups : List Str) (conn : Conn)
    (matched : List Str) (resp : Str) (rest : List Str)
    (hl : conn.lines = resp :: rest) (h211 : hasPrefix resp "211 ".toList = false) :
    groupLoop tbl clock poster days exact k (group :: groups) conn matched =
      groupLoop tbl clock poster days exact k groups
        ⟨rest, conn.out ++ ["group ".toList ++ group ++ crlf]⟩ matched ∧
    (groupLoop tbl clock poster days exact k (group :: groups) conn matched).1 =
      (groupLoop tbl clock poster days exact k groups ⟨rest, conn.out⟩ matched).1 := by
  have step : groupLoop tbl clock poster days exact k (group :: groups) conn matched =
      groupLoop tbl clock poster days exact k groups
        ⟨rest, conn.out ++ ["group ".toList ++ group ++ crlf]⟩ matched := by
    simp only [groupLoop, Conn.write, hl, h211, Bool.not_false, if_true]
  exact ⟨step, by rw [step]; exact groupLoop_out_indep _ _ _ _ _ _ _ _ _ _ _⟩

/-- C13 at a concrete run over two groups: the first answers `411`, the second has no
matching article; what is written is the two group commands, one range command and
`quit`. -/
theorem C13_unusable_group_skipped_witness :
    groupLoop id (fun _ => Now.fixed 0) "john".toList 0 false 0 ["a".toList, "b".toList]
      ⟨["411 no such group\r\n".toList, "211 1 7 7 b\r\n".toList, dotCRLF], []⟩ [] =
      (Except.ok [], ⟨[], ["group a\r\n".toList, "group b\r\n".toList, "xover 7-7\r\n".toList,
        "quit\r\n".toList]⟩) :=
  (C13_unusable_group_skipped id (fun _ => Now.fixed 0) "john".toList 0 false 0 "a".toList ["b".toList]
    ⟨["411 no such group\r\n".toList, "211 1 7 7 b\r\n".toList, dotCRLF], []⟩ []
    "411 no such group\r\n".toList ["211 1 7 7 b\r\n".toList, dotCRLF] rfl (by decide)).1.trans rfl

/-- C14. Group listing.  `getGroups` returns without error the result of its loop on the
lines received: all lines of the stream when authentication is skipped (empty user name
or password), the lines after the two responses when authentication succeeds.  The loop
returns, for the lines before the terminator and in the order received, the first
whitespace-delimited field of every line that has a field; a line without a field is
skipped, nothing is removed or reordered, and a line `alt.test 000104 000100 y` in the
block puts `alt.test` into the list. -/
theorem C14_group_listing (bytes pattern username password : Str) :
    ((username = [] ∨ password = []) →
      (getGroups (some bytes) pattern username password).1 =
        Except.ok (getGroupsLoop (splitLines bytes))) ∧
    (∀ r1 r2 rest, username ≠ [] → password ≠ [] → splitLines bytes = r1 :: r2 :: rest →
      hasPrefix r1 "381".toList = true → hasPrefix r2 "281".toList = true →
      (getGroups (some bytes) pattern username password).1 =
        Except.ok (getGroupsLoop rest)) ∧
    (∀ lines, getGroupsLoop lines =
      (lines.takeWhile (fun l => l != dotCRLF)).filterMap (fun l => (fields l).head?)) ∧
    (∀ pre post line, line ≠ dotCRLF → fields line = [] →
      getGroupsLoop (pre ++ line :: post) = getGroupsLoop (pre ++ post)) ∧
    (∀ lines, "alt.test 000104 000100 y\r\n".toList ∈
        lines.takeWhile (fun l => l != dotCRLF) →
      "alt.test".toList ∈ getGroupsLoop lines) := by
  refine ⟨?_, ?_, getGroupsLoop_eq, ?_, ?_⟩
  · intro hauth
    have hno : ¬ (username ≠ [] ∧ password ≠ []) := by
      rcases hauth with h | h <;> simp [h]
    simp only [getGroups, if_neg hno, Conn.write]
  · intro r1 r2 rest hu hp hl h1 h2
    have hyes : username ≠ [] ∧ password ≠ [] := ⟨hu, hp⟩
    simp only [getGroups, if_pos hyes, authenticateNNTP, Conn.write, hl, h1, h2, Bool.not_true,
      Bool.false_eq_true, if_false]
  · intro pre post line hline hf
    induction pre with
    | nil => simp [getGroupsLoop, hline, hf]
    | cons a pre ih =>
      by_cases ha : a = dotCRLF
      · simp [getGroupsLoop, ha]
      · have e1 : getGroupsLoop (a :: (pre ++ line :: post)) =
            (fields a).head?.toList ++ getGroupsLoop (pre ++ line :: post) := by
          simp only [getGroupsLoop, if_neg ha]
          cases fields a <;> simp
        have e2 : getGroupsLoop (a :: (pre ++ post)) =
            (fields a).head?.toList ++ getGroupsLoop (pre ++ post) := by
          simp only [getGroupsLoop, if_neg ha]
          cases fields a <;> simp
        rw [List.cons_append, List.cons_append, e1, e2, ih]
  · intro lines hmem
    rw [getGroupsLoop_eq, List.mem_filterMap]
    exact ⟨_, hmem, by decide⟩

/-- C14 at a concrete stream: duplicates and the server's order are kept, the blank line
is skipped. -/
theorem C14_group_listing_witness :
    (getGroups (some "b.x 2 1 y\r\n \r\nalt.test 000104 000100 y\r\nb.x 2 1 y\r\n.\r\n".toList)
      "*".toList [] []).1 =
      Except.ok ["b.x".toList, "alt.test".toList, "b.x".toList] :=
  ((C14_group_listing "b.x 2 1 y\r\n \r\nalt.test 000104 000100 y\r\nb.x 2 1 y\r\n.\r\n".toList
    "*".toList [] []).1 (Or.inl rfl)).trans rfl

theorem selectRecord_short (tbl : Char → Char) (cutoff : Int) (sn se : Str) (days : Int)
    (exact : Bool) (line : Str) (hshort : (split '\t' line).length < 4) :
    selectRecord tbl cutoff sn se days exact line = none := by
  rcases hs : split '\t' line with _ | ⟨f0, _ | ⟨f1, _ | ⟨ff, _ | ⟨f3, more⟩⟩⟩⟩
  · simp [selectRecord, hs]
  · simp [selectRecord, hs]
  · simp [selectRecord, hs]
  · simp [selectRecord, hs]
  · rw [hs] at hshort
    simp only [List.length_cons] at hshort
    omega

theorem scanLoop_remove (tbl : Char → Char) (cutoff : Int) (sn se : Str) (days : Int)
    (exact : Bool) (line : Str) (pre post : List Str) (hline : line ≠ dotCRLF)
    (hnone : selectRecord tbl cutoff sn se days exact line = none) :
    (scanLoop tbl cutoff sn se days exact (pre ++ line :: post)).1 =
      (scanLoop tbl cutoff sn se days exact (pre ++ post)).1 := by
  induction pre with
  | nil => simp [scanLoop, hline, hnone]
  | cons a pre ih =>
    by_cases ha : a = dotCRLF
    · simp [scanLoop, ha]
    · simp only [List.cons_append, scanLoop, if_neg ha]
      cases selectRecord tbl cutoff sn se days exact a with
      | none => exact ih
      | some num => exact congrArg (List.cons num) ih

/-- C15. A line with fewer than four tab-separated fields (and other than the
terminator) is skipped silently: it yields no article number, and the result of
`getArticleNumbers` is the same with the line removed from the block.  Within a block
the reader is left at the same place too, so the whole turn of the group loop (result
and commands written, article commands included) is the same as without the line. -/
theorem C15_malformed_record_skipped (tbl : Char → Char) (now : Now) (poster : Str)
    (days : Int) (exact : Bool) (line : Str) (hline : line ≠ dotCRLF)
    (hshort : (split '\t' line).length < 4) :
    selectRecord tbl (cutoffDate now days) (normalizeSearchTerm tbl poster).1
      (normalizeSearchTerm tbl poster).2 days exact line = none ∧
    (∀ pre post,
      (getArticleNumbers tbl now (pre ++ line :: post) poster days exact).1 =
        (getArticleNumbers tbl now (pre ++ post) poster days exact).1) ∧
    (∀ pre post, dotCRLF ∉ pre →
      getArticleNumbers tbl now (pre ++ line :: post) poster days exact =
        getArticleNumbers tbl now (pre ++ post) poster days exact) ∧
    (∀ (clock : Nat → Now) k group groups (conn : Conn) matched resp pre post p0 p1 p2 p3 more,
      clock k = now → dotCRLF ∉ pre → conn.lines = resp :: (pre ++ line :: post) →
      hasPrefix resp "211 ".toList = true → fields resp = p0 :: p1 :: p2 :: p3 :: more →
      groupLoop tbl clock poster days exact k (group :: groups) conn matched =
        groupLoop tbl clock poster days exact k (group :: groups)
          ⟨resp :: (pre ++ post), conn.out⟩ matched) := by
  have hnone := selectRecord_short tbl (cutoffDate now days) (normalizeSearchTerm tbl poster).1
    (normalizeSearchTerm tbl poster).2 days exact line hshort
  have hfst : ∀ pre post,
      (getArticleNumbers tbl now (pre ++ line :: post) poster days exact).1 =
        (getArticleNumbers tbl now (pre ++ post) poster days exact).1 := by
    intro pre post
    simp only [getArticleNumbers]
    exact scanLoop_remove _ _ _ _ _ _ _ _ _ hline hnone
  have hpair : ∀ pre post, dotCRLF ∉ pre →
      getArticleNumbers tbl now (pre ++ line :: post) poster days exact =
        getArticleNumbers tbl now (pre ++ post) poster days exact := by
    intro pre post hpre
    apply Prod.ext (hfst pre post)
    have h1 : (line != dotCRLF) = true := by simpa using hline
    have e1 : (pre ++ line :: post).dropWhile (fun l => l != dotCRLF) =
        post.dropWhile (fun l => l != dotCRLF) := by
      rw [List.dropWhile_append, (List.dropWhile_eq_nil_iff).mpr, List.dropWhile_cons, h1]
      · simp
      · intro x hx
        have : x ≠ dotCRLF := fun e => hpre (e ▸ hx)
        simpa using this
    have e2 : (pre ++ post).dropWhile (fun l => l != dotCRLF) =
        post.dropWhile (fun l => l != dotCRLF) := by
      rw [List.dropWhile_append, (List.dropWhile_eq_nil_iff).mpr]
      · simp
      · intro x hx
        have : x ≠ dotCRLF := fun e => hpre (e ▸ hx)
        simpa using this
    simp only [getArticleNumbers, scanLoop_snd, e1, e2]
  refine ⟨hnone, hfst, hpair, ?_⟩
  intro clock k group groups conn matched resp pre post p0 p1 p2 p3 more hclock hpre hl h211 hf
  rw [groupLoop_step tbl clock poster days exact k group groups conn matched resp _ p0 p1 p2 p3
      more hl h211 hf,
    groupLoop_step tbl clock poster days exact k group groups ⟨resp :: (pre ++ post), conn.out⟩
      matched resp _ p0 p1 p2 p3 more rfl h211 hf, hclock, hpair pre post hpre]

/-- C15 at a concrete block: the line with exactly three tab fields in front of the
sample line changes nothing. -/
theorem C15_malformed_record_skipped_witness :
    (getArticleNumbers id (Now.fixed 0) ([] ++ "9\tsubject\tJohn Doe <j@x.com>\r\n".toList ::
      [sampleLine, dotCRLF]) "john".toList 0 false).1 = ["105".toList] :=
  ((C15_malformed_record_skipped id (Now.fixed 0) "john".toList 0 false
    "9\tsubject\tJohn Doe <j@x.com>\r\n".toList (by decide) (by decide)).2.1 []
    [sampleLine, dotCRLF]).trans (by decide)

theorem selectRecord_isSome_iff (tbl : Char → Char) (cutoff : Int) (sn se : Str)
    (days : Int) (exact : Bool) (line : Str) :
    (selectRecord tbl cutoff sn se days exact line).isSome = true ↔
      ∃ f0 f1 fromField f3 more, split '\t' line = f0 :: f1 :: fromField :: f3 :: more ∧
        posterMatch tbl sn se exact fromField = true ∧
        ∃ date, parseDate (dateString f3) = some date ∧ (days = 0 ∨ cutoff < date) := by
  constructor
  · intro h
    obtain ⟨num, hnum⟩ := Option.isSome_iff_exists.mp h
    obtain ⟨f1, ff, f3, more, hs, hm, hd⟩ := selectRecord_some _ _ _ _ _ _ _ _ hnum
    exact ⟨num, f1, ff, f3, more, hs, hm, hd⟩
  · rintro ⟨f0, f1, ff, f3, more, hs, hm, date, hd, hgate⟩
    rw [selectRecord_of_fields _ _ _ _ _ _ _ _ _ _ _ _ hs, if_pos hm]
    simp only [hd, if_pos hgate, Option.isSome_some]

theorem filterMap_eq_map_filter (f : Str → Option Str) (g : Str → Str) (l : List Str)
    (h : ∀ x y, f x = some y → y = g x) :
    l.filterMap f = (l.filter (fun x => (f x).isSome)).map g := by
  induction l with
  | nil => rfl
  | cons a l ih =>
    cases hf : f a with
    | none => simp [List.filterMap_cons, hf, List.filter_cons, ih]
    | some y => simp [List.filterMap_cons, hf, List.filter_cons, ih, h a y hf]

theorem filterMap_sublist_of_le (f g : Str → Option Str) (l : List Str)
    (h : ∀ x y, f x = some y → g x = some y) :
    List.Sublist (l.filterMap f) (l.filterMap g) := by
  induction l with
  | nil => simp
  | cons a l ih =>
    cases hf : f a with
    | none =>
      cases hg : g a with
      | none => simpa [List.filterMap_cons, hf, hg] using ih
      | some z => simpa [List.filterMap_cons, hf, hg] using List.Sublist.cons z ih
    | some y =>
      simpa [List.filterMap_cons, hf, h a y hf] using ih

theorem contains_self (s : Str) : contains s s = true :=
  ( contains_iff_infix s s).mpr List.infix_rfl

/-- C16. Server order is preserved: the list returned by `getArticleNumbers` is the
field-0 value of every line before the terminator that passes both gates (at least four
tab fields, poster match, date that parses and passes the date gate), one entry per such
line and in the order of the lines; it is a subsequence of the field-0 column of the
block. -/
theorem C16_server_order (tbl : Char → Char) (now : Now) (poster : Str) (days : Int)
    (exact : Bool) (lines : List Str) :
    (getArticleNumbers tbl now lines poster days exact).1 =
      ((lines.takeWhile (fun l => l != dotCRLF)).filter
        (fun l => (selectRecord tbl (cutoffDate now days) (normalizeSearchTerm tbl poster).1
          (normalizeSearchTerm tbl poster).2 days exact l).isSome)).map
        (fun l => (split '\t' l).headD []) ∧
    (∀ l, (selectRecord tbl (cutoffDate now days) (normalizeSearchTerm tbl poster).1
          (normalizeSearchTerm tbl poster).2 days exact l).isSome = true ↔
      ∃ f0 f1 fromField f3 more, split '\t' l = f0 :: f1 :: fromField :: f3 :: more ∧
        posterMatch tbl (normalizeSearchTerm tbl poster).1 (normalizeSearchTerm tbl poster).2
          exact fromField = true ∧
        ∃ date, parseDate (dateString f3) = some date ∧
          (days = 0 ∨ cutoffDate now days < date)) ∧
    List.Sublist (getArticleNumbers tbl now lines poster days exact).1
      ((lines.takeWhile (fun l => l != dotCRLF)).map (fun l => (split '\t' l).headD [])) := by
  have key : (getArticleNumbers tbl now lines poster days exact).1 =
      ((lines.takeWhile (fun l => l != dotCRLF)).filter
        (fun l => (selectRecord tbl (cutoffDate now days) (normalizeSearchTerm tbl poster).1
          (normalizeSearchTerm tbl poster).2 days exact l).isSome)).map
        (fun l => (split '\t' l).headD []) := by
    simp only [getArticleNumbers, scanLoop_fst]
    apply filterMap_eq_map_filter
    intro x y hxy
    obtain ⟨f1, ff, f3, more, hs, -, -⟩ := selectRecord_some _ _ _ _ _ _ _ _ hxy
    rw [hs]
    rfl
  refine ⟨key, fun l => selectRecord_isSome_iff _ _ _ _ _ _ l, ?_⟩
  rw [key]
  exact List.Sublist.map _ (List.filter_sublist _)

/-- C16 at a concrete block: two of four records pass, the same number twice. -/
theorem C16_server_order_witness :
    (getArticleNumbers id (Now.fixed 0)
      [sampleLine, "7\ts\tJane <j@x.com>\tMon, 1 Jan 2024 10:00:00 +0000\tx\r\n".toList,
       "3\ts\tjohn\tMon, 1 Jan 2024 10:00:00 +0000\tx\r\n".toList, sampleLine, dotCRLF,
       sampleLine] "john".toList 0 false).1 =
      ["105".toList, "3".toList, "105".toList] :=
  (C16_server_order id (Now.fixed 0) "john".toList 0 false
    [sampleLine, "7\ts\tJane <j@x.com>\tMon, 1 Jan 2024 10:00:00 +0000\tx\r\n".toList,
     "3\ts\tjohn\tMon, 1 Jan 2024 10:00:00 +0000\tx\r\n".toList, sampleLine, dotCRLF,
     sampleLine]).1.trans (by decide)

/-! ### The text accepted by `parseDate` -/

theorem Consumes.rfl (v : Str) : Consumes v v := ⟨[], by simp, by simp⟩

theorem Consumes.trans {a b c : Str} (h1 : Consumes a b) (h2 : Consumes b c) :
    Consumes a c := by
  obtain ⟨p1, e1, g1⟩ := h1
  obtain ⟨p2, e2, g2⟩ := h2
  refine ⟨p1 ++ p2, by rw [e1, e2, List.append_assoc], ?_⟩
  intro x hx
  rcases List.mem_append.mp hx with hx | hx
  · exact g1 x hx
  · exact g2 x hx

theorem lt_of_or_le (n : Nat) (h : n ||| 32 ≤ 122) : n < 128 := by
  apply Nat.lt_pow_two_of_testBit n (n := 7)
  intro i hi
  have h1 : (n ||| 32) < 2 ^ i :=
    lt_of_lt_of_le (by omega : n ||| 32 < 2 ^ 7) (Nat.pow_le_pow_right (by decide) hi)
  have h2 := Nat.testBit_lt_two_pow h1
  rw [Nat.testBit_or] at h2
  simp only [Bool.or_eq_false_iff] at h2
  exact h2.1

theorem letter_of_or (n : Nat) (h1 : 97 ≤ n ||| 32) (h2 : n ||| 32 ≤ 122) :
    (65 ≤ n ∧ n ≤ 90) ∨ (97 ≤ n ∧ n ≤ 122) := by
  have h3 := lt_of_or_le n h2
  have key : ∀ n, n < 128 → 97 ≤ n ||| 32 → n ||| 32 ≤ 122 →
      (65 ≤ n ∧ n ≤ 90) ∨ (97 ≤ n ∧ n ≤ 122) := by decide
  exact key n h3 h1 h2

theorem matchFold_letters (s1 s2 : Str) (hlen : s1.length = s2.length)
    (hm : matchFold s1 s2 = true) (h2 : ∀ c ∈ s2, isLetterRune c = true) :
    ∀ c ∈ s1, isLetterRune c = true := by
  induction s1 generalizing s2 with
  | nil => simp
  | cons c1 t1 ih =>
    cases s2 with
    | nil => simp at hlen
    | cons c2 t2 =>
      simp only [matchFold, Bool.and_eq_true, Bool.or_eq_true, decide_eq_true_eq] at hm
      obtain ⟨hc, ht⟩ := hm
      intro c hc1
      rcases List.mem_cons.mp hc1 with e | hmem
      · subst e
        rcases hc with e2 | ⟨⟨-, hlo⟩, hhi⟩
        · rw [e2]
          exact h2 c2 (by simp)
        · have := letter_of_or c.toNat hlo hhi
          simp only [isLetterRune, Bool.or_eq_true, Bool.and_eq_true, decide_eq_true_eq]
          exact this
      · exact ih t2 (by simpa using hlen) ht (fun x hx => h2 x (by simp [hx])) c hmem

theorem lookup_some (tab : List Str) (val : Str) (i : Nat) (r : Str)
    (h : lookup tab val = some (i, r)) :
    ∃ name ∈ tab, name.length ≤ val.length ∧ matchFold (val.take name.length) name = true ∧
      r = val.drop name.length := by
  induction tab generalizing i with
  | nil => simp [lookup] at h
  | cons v vs ih =>
    simp only [lookup] at h
    split at h
    · rename_i hv
      simp only [Option.some.injEq, Prod.mk.injEq] at h
      exact ⟨v, by simp, hv.1, hv.2, h.2.symm⟩
    · cases hl : lookup vs val with
      | none => simp [hl] at h
      | some pr =>
        obtain ⟨j, r1⟩ := pr
        simp only [hl, Option.some.injEq, Prod.mk.injEq] at h
        obtain ⟨-, hr⟩ := h
        subst hr
        obtain ⟨name, hn, h1, h2, h3⟩ := ih j hl
        exact ⟨name, by simp [hn], h1, h2, h3⟩

theorem dateRune_of_letter (c : Char) (h : isLetterRune c = true) : dateRune c = true := by
  simp [dateRune, h]

theorem dateRune_of_digit (c : Char) (h : (digitVal c).isSome = true) : dateRune c = true := by
  simp [dateRune, isDigitRune, h]

/-- A successful name lookup consumes letters only, and at least one when no name of the
table is empty. -/
theorem lookup_consumes (tab : List Str) (val : Str) (i : Nat) (r : Str)
    (htab : ∀ name ∈ tab, name ≠ [] ∧ ∀ c ∈ name, isLetterRune c = true)
    (h : lookup tab val = some (i, r)) :
    Consumes val r ∧ ∃ a u, val = a :: u ∧ isLetterRune a = true := by
  obtain ⟨name, hn, hlen, hm, hr⟩ := lookup_some tab val i r h
  have hl : (val.take name.length).length = name.length := by
    rw [List.length_take]
    exact Nat.min_eq_left hlen
  have hlet := matchFold_letters _ _ hl hm (htab name hn).2
  constructor
  · refine ⟨val.take name.length, by rw [hr, List.take_append_drop], ?_⟩
    exact fun c hc => dateRune_of_letter c (hlet c hc)
  · cases val with
    | nil =>
      have : name.length = 0 := by simpa using hlen
      exact absurd (List.length_eq_zero.mp this) (htab name hn).1
    | cons a u =>
      refine ⟨a, u, rfl, hlet a ?_⟩
      cases hname : name with
      | nil => exact absurd hname (htab name hn).1
      | cons x xs => simp

theorem skipRune_consumes (lit : Char) (v r : Str) (hlit : dateRune lit = true)
    (h : skipRune lit v = some r) : Consumes v r := by
  cases v with
  | nil => simp [skipRune] at h
  | cons c cs =>
    simp only [skipRune] at h
    split at h
    · rename_i hc
      simp only [Option.some.injEq] at h
      refine ⟨[c], by simp [h], ?_⟩
      intro x hx
      simp only [List.mem_singleton] at hx
      rw [hx, hc]
      exact hlit
    · simp at h

theorem cutspace_consumes (v : Str) : Consumes v (cutspace v) := by
  refine ⟨v.takeWhile (fun c => c == ' '), ?_, ?_⟩
  · unfold cutspace
    rw [List.takeWhile_append_dropWhile]
  · intro c hc
    have := List.mem_takeWhile_imp hc
    simp only [beq_iff_eq] at this
    rw [this]
    decide

theorem skipSpace_consumes (v r : Str) (h : skipSpace v = some r) : Consumes v r := by
  cases v with
  | nil =>
    simp only [skipSpace, Option.some.injEq] at h
    rw [← h]
    exact Consumes.rfl _
  | cons c cs =>
    simp only [skipSpace] at h
    split at h
    · simp only [Option.some.injEq] at h
      rw [← h]
      exact cutspace_consumes _
    · simp at h

theorem getnum_consumes (v r : Str) (fixed : Bool) (x : Nat)
    (h : getnum v fixed = some (x, r)) : Consumes v r := by
  cases v with
  | nil => simp [getnum] at h
  | cons c0 t =>
    simp only [getnum] at h
    cases h0 : digitVal c0 with
    | none => simp [h0] at h
    | some d0 =>
      have g0 : dateRune c0 = true := dateRune_of_digit c0 (by simp [h0])
      simp only [h0] at h
      cases t with
      | nil =>
        simp only at h
        split at h
        · simp at h
        · simp only [Option.some.injEq, Prod.mk.injEq] at h
          refine ⟨[c0], by simp [h.2], ?_⟩
          intro y hy
          simp only [List.mem_singleton] at hy
          rw [hy]
          exact g0
      | cons c1 u =>
        simp only at h
        cases h1 : digitVal c1 with
        | some d1 =>
          simp only [h1, Option.some.injEq, Prod.mk.injEq] at h
          refine ⟨[c0, c1], by simp [h.2], ?_⟩
          intro y hy
          simp only [List.mem_cons, List.mem_singleton, List.not_mem_nil, or_false] at hy
          rcases hy with e | e
          · rw [e]
            exact g0
          · rw [e]
            exact dateRune_of_digit c1 (by simp [h1])
        | none =>
          simp only [h1] at h
          split at h
          · simp at h
          · simp only [Option.some.injEq, Prod.mk.injEq] at h
            refine ⟨[c0], by simp [h.2], ?_⟩
            intro y hy
            simp only [List.mem_singleton] at hy
            rw [hy]
            exact g0

theorem parseYear_consumes (v r : Str) (x : Nat) (h : parseYear v = some (x, r)) :
    Consumes v r := by
  rcases v with _ | ⟨a, _ | ⟨b, _ | ⟨c, _ | ⟨d, rest⟩⟩⟩⟩
  · simp [parseYear] at h
  · simp [parseYear] at h
  · simp [parseYear] at h
  · simp [parseYear] at h
  · simp only [parseYear] at h
    cases ha : digitVal a with
    | none => simp [ha] at h
    | some va =>
      cases hb : digitVal b with
      | none => simp [ha, hb] at h
      | some vb =>
        cases hc : digitVal c with
        | none => simp [ha, hb, hc] at h
        | some vc =>
          cases hd : digitVal d with
          | none => simp [ha, hb, hc, hd] at h
          | some vd =>
            simp only [ha, hb, hc, hd, Option.some.injEq, Prod.mk.injEq] at h
            refine ⟨[a, b, c, d], by simp [h.2], ?_⟩
            intro y hy
            simp only [List.mem_cons, List.mem_singleton, List.not_mem_nil, or_false] at hy
            rcases hy with e | e | e | e <;> rw [e]
            · exact dateRune_of_digit a (by simp [ha])
            · exact dateRune_of_digit b (by simp [hb])
            · exact dateRune_of_digit c (by simp [hc])
            · exact dateRune_of_digit d (by simp [hd])

theorem parseFrac_consumes (v : Str) : Consumes v (parseFrac v).2 := by
  rcases v with _ | ⟨c, _ | ⟨d, rest⟩⟩
  · exact Consumes.rfl _
  · exact Consumes.rfl _
  · simp only [parseFrac]
    split
    · rename_i hc
      refine ⟨c :: (d :: rest).takeWhile isDigitRune, ?_, ?_⟩
      · simp only [List.cons_append, List.takeWhile_append_dropWhile]
      · intro y hy
        rcases List.mem_cons.mp hy with e | hmem
        · rw [e]
          rcases hc.1 with e1 | e1 <;> rw [e1] <;> decide
        · have := List.mem_takeWhile_imp hmem
          simp [dateRune, this]
    · exact Consumes.rfl _

theorem getnum_two (a b : Char) (x : Nat) (r : Str) (h : getnum [a, b] true = some (x, r)) :
    (digitVal a).isSome = true ∧ (digitVal b).isSome = true := by
  simp only [getnum] at h
  cases ha : digitVal a with
  | none => simp [ha] at h
  | some va =>
    cases hb : digitVal b with
    | none => simp [ha, hb] at h
    | some vb => simp

/-- A numeric zone is a sign followed by four digits. -/
theorem parseNumTZ_shape (v r : Str) (off : Int) (h : parseNumTZ v = some (off, r)) :
    ∃ sgn h1 h2 m1 m2, v = [sgn, h1, h2, m1, m2] ++ r ∧ (sgn = '+' ∨ sgn = '-') ∧
      (digitVal h1).isSome = true ∧ (digitVal h2).isSome = true ∧
      (digitVal m1).isSome = true ∧ (digitVal m2).isSome = true := by
  rcases v with _ | ⟨sgn, _ | ⟨h1, _ | ⟨h2, _ | ⟨m1, _ | ⟨m2, rest⟩⟩⟩⟩⟩
  · simp [parseNumTZ] at h
  · simp [parseNumTZ] at h
  · simp [parseNumTZ] at h
  · simp [parseNumTZ] at h
  · simp [parseNumTZ] at h
  · simp only [parseNumTZ] at h
    cases hh : getnum [h1, h2] true with
    | none => simp [hh] at h
    | some ph =>
      obtain ⟨hr, rh⟩ := ph
      cases hm : getnum [m1, m2] true with
      | none => simp [hh, hm] at h
      | some pm =>
        obtain ⟨mm, rm⟩ := pm
        simp only [hh, hm] at h
        have dh := getnum_two h1 h2 hr rh hh
        have dm := getnum_two m1 m2 mm rm hm
        split_ifs at h with hrange hplus hminus
        · simp only [Option.some.injEq, Prod.mk.injEq] at h
          exact ⟨sgn, h1, h2, m1, m2, by simp [h.2], Or.inl hplus, dh.1, dh.2, dm.1, dm.2⟩
        · simp only [Option.some.injEq, Prod.mk.injEq] at h
          exact ⟨sgn, h1, h2, m1, m2, by simp [h.2], Or.inr hminus, dh.1, dh.2, dm.1, dm.2⟩

theorem parseNumTZ_consumes (v r : Str) (off : Int) (h : parseNumTZ v = some (off, r)) :
    Consumes v r := by
  obtain ⟨sgn, h1, h2, m1, m2, hv, hs, d1, d2, d3, d4⟩ := parseNumTZ_shape v r off h
  refine ⟨[sgn, h1, h2, m1, m2], hv, ?_⟩
  intro y hy
  simp only [List.mem_cons, List.mem_singleton, List.not_mem_nil, or_false] at hy
  rcases hy with e | e | e | e | e <;> rw [e]
  · rcases hs with e1 | e1 <;> rw [e1] <;> decide
  · exact dateRune_of_digit _ d1
  · exact dateRune_of_digit _ d2
  · exact dateRune_of_digit _ d3
  · exact dateRune_of_digit _ d4

theorem bind_consumes {α : Type} (f : Str → Option Str) (g : Str → Option (α × Str))
    (v r : Str) (x : α) (hf : ∀ a b, f a = some b → Consumes a b)
    (hg : ∀ a y b, g a = some (y, b) → Consumes a b)
    (h : (f v).bind g = some (x, r)) : Consumes v r := by
  obtain ⟨a, h1, h2⟩ := Option.bind_eq_some.mp h
  exact (hf v a h1).trans (hg a x r h2)

/-- What `parseDate` accepts is made of date runes only, starts with a letter (of the
weekday) and ends with a digit (of the zone). -/
theorem parseDate_inv (d : Str) (t : Int) (h : parseDate d = some t) :
    (∀ c ∈ d, dateRune c = true) ∧ (∃ a u, d = a :: u ∧ isLetterRune a = true) ∧
    (∃ m b, d = m ++ [b] ∧ (digitVal b).isSome = true) := by
  unfold parseDate at h
  cases h1 : lookup shortDayNames d with
  | none => simp [h1] at h
  | some p1 =>
  obtain ⟨i1, v1⟩ := p1
  simp only [h1] at h
  cases h2 : (skipRune ',' v1).bind skipSpace with
  | none => simp [h2] at h
  | some v2 =>
  simp only [h2] at h
  cases h3 : getnum v2 false with
  | none => simp [h3] at h
  | some p3 =>
  obtain ⟨day, v3⟩ := p3
  simp only [h3] at h
  cases h4 : (skipSpace v3).bind (lookup shortMonthNames) with
  | none => simp [h4] at h
  | some p4 =>
  obtain ⟨mon, v4⟩ := p4
  simp only [h4] at h
  cases h5 : (skipSpace v4).bind parseYear with
  | none => simp [h5] at h
  | some p5 =>
  obtain ⟨year, v5⟩ := p5
  simp only [h5] at h
  cases h6 : (skipSpace v5).bind (fun v => getnum v false) with
  | none => simp [h6] at h
  | some p6 =>
  obtain ⟨hour, v6⟩ := p6
  simp only [h6] at h
  by_cases hh : 24 ≤ hour
  · simp [hh] at h
  simp only [if_neg hh] at h
  cases h7 : (skipRune ':' v6).bind (fun v => getnum v true) with
  | none => simp [h7] at h
  | some p7 =>
  obtain ⟨min, v7⟩ := p7
  simp only [h7] at h
  by_cases hmin : 60 ≤ min
  · simp [hmin] at h
  simp only [if_neg hmin] at h
  cases h8 : (skipRune ':' v7).bind (fun v => getnum v true) with
  | none => simp [h8] at h
  | some p8 =>
  obtain ⟨sec, v8⟩ := p8
  simp only [h8] at h
  by_cases hsec : 60 ≤ sec
  · simp [hsec] at h
  simp only [if_neg hsec] at h
  cases h9 : (skipSpace (parseFrac v8).2).bind parseNumTZ with
  | none => simp [h9] at h
  | some p9 =>
  obtain ⟨zone, v9⟩ := p9
  simp only [h9] at h
  by_cases hv9 : v9 = []
  swap
  · simp [hv9] at h
  subst hv9
  have hdays : ∀ name ∈ shortDayNames, name ≠ [] ∧ ∀ c ∈ name, isLetterRune c = true := by
    decide
  have hmons : ∀ name ∈ shortMonthNames, name ≠ [] ∧ ∀ c ∈ name, isLetterRune c = true := by
    decide
  obtain ⟨c1, hhead⟩ := lookup_consumes _ _ _ _ hdays h1
  have c2 : Consumes v1 v2 := by
    obtain ⟨a, e1, e2⟩ := Option.bind_eq_some.mp h2
    exact (skipRune_consumes _ _ _ (by decide) e1).trans (skipSpace_consumes _ _ e2)
  have c3 := getnum_consumes _ _ _ _ h3
  have c4 : Consumes v3 v4 :=
    bind_consumes _ _ _ _ _ skipSpace_consumes
      (fun a y b e => (lookup_consumes _ _ _ _ hmons e).1) h4
  have c5 : Consumes v4 v5 :=
    bind_consumes _ _ _ _ _ skipSpace_consumes (fun a y b e => parseYear_consumes a b y e) h5
  have c6 : Consumes v5 v6 :=
    bind_consumes _ _ _ _ _ skipSpace_consumes (fun a y b e => getnum_consumes a b _ y e) h6
  have c7 : Consumes v6 v7 :=
    bind_consumes _ _ _ _ _ (fun a b e => skipRune_consumes ':' a b (by decide) e)
      (fun a y b e => getnum_consumes a b _ y e) h7
  have c8 : Consumes v7 v8 :=
    bind_consumes _ _ _ _ _ (fun a b e => skipRune_consumes ':' a b (by decide) e)
      (fun a y b e => getnum_consumes a b _ y e) h8
  obtain ⟨w, e1, e2⟩ := Option.bind_eq_some.mp h9
  have c9 : Consumes v8 w := (parseFrac_consumes v8).trans (skipSpace_consumes _ _ e1)
  obtain ⟨sgn, z1, z2, z3, z4, hw, hs, d1, d2, d3, d4⟩ := parseNumTZ_shape w [] zone e2
  have call : Consumes d w :=
    c1.trans (c2.trans (c3.trans (c4.trans (c5.trans (c6.trans (c7.trans (c8.trans c9)))))))
  obtain ⟨pre, hd, hpre⟩ := call
  refine ⟨?_, hhead, ⟨pre ++ [sgn, z1, z2, z3], z4, ?_, d4⟩⟩
  · obtain ⟨pw, hpw, hgood⟩ := parseNumTZ_consumes w [] zone e2
    intro c hc
    rw [hd] at hc
    rcases List.mem_append.mp hc with hc | hc
    · exact hpre c hc
    · rw [hpw] at hc
      simp only [List.append_nil] at hc
      exact hgood c hc
  · rw [hd, hw]
    simp

theorem splitHead_of_absent (sep s : Str) (h : ¬ sep <:+: s) : splitHead sep s = s := by
  induction s with
  | nil => rfl
  | cons c cs ih =>
    have h1 : ¬ sep <+: c :: cs := fun hp => h hp.isInfix
    have h2 : ¬ sep <:+: cs := fun hi => h (List.infix_cons hi)
    have h3 : sep.isPrefixOf (c :: cs) = false := by
      rw [Bool.eq_false_iff]
      intro hp
      exact h1 (List.isPrefixOf_iff_prefix.mp hp)
    simp only [splitHead, h3, Bool.false_eq_true, if_false, ih h2]

theorem splitHead_paren (d rest : Str) (h : '(' ∉ d) :
    splitHead " (".toList (d ++ ' ' :: '(' :: rest) = d := by
  induction d with
  | nil => simp [splitHead, List.isPrefixOf]
  | cons c cs ih =>
    have hc : c ≠ '(' := fun e => h (by simp [e])
    have hcs : '(' ∉ cs := fun m => h (by simp [m])
    have hp : (" (".toList).isPrefixOf (c :: cs ++ ' ' :: '(' :: rest) = false := by
      cases cs with
      | nil => simp [List.isPrefixOf]
      | cons x xs =>
        have hx : x ≠ '(' := fun e => hcs (by simp [e])
        have hx2 : ¬ '(' = x := fun e => hx e.symm
        simp [List.isPrefixOf, hx2]
    rw [List.cons_append] at hp ⊢
    simp only [splitHead, hp, Bool.false_eq_true, if_false, ih hcs]

theorem paren_not_mem_of_dateRunes (d : Str) (h : ∀ c ∈ d, dateRune c = true) : '(' ∉ d :=
  fun hm => absurd (h _ hm) (by decide)

theorem not_infix_of_not_mem (d : Str) (h : '(' ∉ d) : ¬ " (".toList <:+: d := by
  intro hi
  exact h (hi.subset (by decide))

/-- The date string handed to `time.Parse` for a field that is a date accepted by
`parseDate`, and for that date followed by a zone name in parentheses. -/
theorem dateString_of_parsed (d z : Str) (t : Int) (hd : parseDate d = some t) :
    dateString d = d ∧ dateString (d ++ " (".toList ++ z ++ ")".toList) = d := by
  obtain ⟨hrunes, ⟨a, u, hau, ha⟩, ⟨m, b, hmb, hb⟩⟩ := parseDate_inv d t hd
  have hparen := paren_not_mem_of_dateRunes d hrunes
  have ha2 : (fun c => c == ' ') a = false := by
    have : a ≠ ' ' := by
      intro e
      rw [e] at ha
      exact absurd ha (by decide)
    simpa using this
  have hb2 : (fun c => c == ' ') b = false := by
    have : b ≠ ' ' := by
      intro e
      rw [e] at hb
      exact absurd hb (by decide)
    simpa using this
  constructor
  · unfold dateString trim
    rw [trimFunc_of_ends _ d a b u m hau hmb ha2 hb2]
    exact splitHead_of_absent _ _ (not_infix_of_not_mem d hparen)
  · have hshape : d ++ " (".toList ++ z ++ ")".toList = d ++ ' ' :: '(' :: (z ++ [')']) := by
      simp
    unfold dateString trim
    rw [hshape, trimFunc_of_ends _ (d ++ ' ' :: '(' :: (z ++ [')'])) a ')'
      (u ++ ' ' :: '(' :: (z ++ [')'])) (d ++ ' ' :: '(' :: z) (by rw [hau]; simp) (by simp)
      ha2 (by decide)]
    exact splitHead_paren d _ hparen

/-- C17. A parenthesized zone name after the date is stripped before parsing: for every
date `d` that `time.Parse` accepts with the layout and every name `z`, the string parsed
for the date field `d (z)` is `d`, the same as for the date field `d`; hence a record
with the date field `d (z)` is selected exactly when the record with the date field `d`
and the same other fields is, and the two blocks give the same result. -/
theorem C17_zone_name_stripped (tbl : Char → Char) (now : Now) (poster : Str) (days : Int)
    (exact : Bool) (d z : Str) (t : Int) (hd : parseDate d = some t) :
    dateString (d ++ " (".toList ++ z ++ ")".toList) = dateString d ∧
    (∀ line line2 f0 f1 fromField more,
      split '\t' line = f0 :: f1 :: fromField :: (d ++ " (".toList ++ z ++ ")".toList) :: more →
      split '\t' line2 = f0 :: f1 :: fromField :: d :: more →
      selectRecord tbl (cutoffDate now days) (normalizeSearchTerm tbl poster).1
          (normalizeSearchTerm tbl poster).2 days exact line =
        selectRecord tbl (cutoffDate now days) (normalizeSearchTerm tbl poster).1
          (normalizeSearchTerm tbl poster).2 days exact line2 ∧
      (line ≠ dotCRLF → line2 ≠ dotCRLF → ∀ pre post, dotCRLF ∉ pre →
        (getArticleNumbers tbl now (pre ++ line :: post) poster days exact).1 =
          (getArticleNumbers tbl now (pre ++ line2 :: post) poster days exact).1)) := by
  obtain ⟨e1, e2⟩ := dateString_of_parsed d z t hd
  refine ⟨by rw [e1, e2], ?_⟩
  intro line line2 f0 f1 ff more hs hs2
  have hsel : selectRecord tbl (cutoffDate now days) (normalizeSearchTerm tbl poster).1
      (normalizeSearchTerm tbl poster).2 days exact line =
      selectRecord tbl (cutoffDate now days) (normalizeSearchTerm tbl poster).1
        (normalizeSearchTerm tbl poster).2 days exact line2 := by
    rw [selectRecord_of_fields _ _ _ _ _ _ _ _ _ _ _ _ hs,
      selectRecord_of_fields _ _ _ _ _ _ _ _ _ _ _ _ hs2, e1, e2]
  refine ⟨hsel, ?_⟩
  intro hl hl2 pre post hpre
  simp only [getArticleNumbers]
  rw [scanLoop_split _ _ _ _ _ _ _ _ _ hpre hl, scanLoop_split _ _ _ _ _ _ _ _ _ hpre hl2, hsel]

/-- C17 at a concrete date: `(CEST)` after the date of the sample line. -/
theorem C17_zone_name_stripped_witness :
    dateString ("Mon, 1 Jan 2024 10:00:00 +0000".toList ++ " (".toList ++ "CEST".toList ++
      ")".toList) = dateString "Mon, 1 Jan 2024 10:00:00 +0000".toList :=
  (C17_zone_name_stripped id (Now.fixed 0) [] 0 false "Mon, 1 Jan 2024 10:00:00 +0000".toList
    "CEST".toList 1704103200000000000 (by decide)).1

/-! ### Lines of a byte stream -/

theorem splitLinesAux_line (body rest cur : Str) (h : '\n' ∉ body) :
    splitLinesAux (body ++ '\n' :: rest) cur =
      (cur ++ body ++ ['\n']) :: splitLinesAux rest [] := by
  induction body generalizing cur with
  | nil => simp [splitLinesAux]
  | cons c cs ih =>
    have hc : c ≠ '\n' := fun e => h (by simp [e])
    have hcs : '\n' ∉ cs := fun m => h (by simp [m])
    rw [List.cons_append]
    simp only [splitLinesAux, if_neg hc]
    rw [ih (cur ++ [c]) hcs]
    simp

theorem splitLinesAux_fragment (frag cur : Str) (h : '\n' ∉ frag) :
    splitLinesAux frag cur = [] := by
  induction frag generalizing cur with
  | nil => rfl
  | cons c cs ih =>
    have hc : c ≠ '\n' := fun e => h (by simp [e])
    have hcs : '\n' ∉ cs := fun m => h (by simp [m])
    simp only [splitLinesAux, if_neg hc]
    exact ih _ hcs

/-- The reader delivers exactly the complete lines of the stream; text after the last
line feed is not delivered as a line. -/
theorem splitLines_flatten (ls : List Str) (frag : Str)
    (hwf : ∀ l ∈ ls, ∃ body, l = body ++ ['\n'] ∧ '\n' ∉ body) (hfrag : '\n' ∉ frag) :
    splitLines (ls.flatten ++ frag) = ls := by
  unfold splitLines
  induction ls with
  | nil => simpa using splitLinesAux_fragment frag [] hfrag
  | cons l ls ih =>
    obtain ⟨body, hl, hbody⟩ := hwf l (by simp)
    have hrest := ih (fun x hx => hwf x (by simp [hx]))
    rw [List.flatten_cons, hl, List.append_assoc, List.append_assoc, List.singleton_append,
      splitLinesAux_line body _ [] hbody, hrest]
    simp

/-- C18. Read failures are tolerated as truncation in listing and index scanning.  When
the stream consists of the complete lines `ls` (each ending with its line feed, none of
them the terminator) followed by an incomplete line `frag` and then fails or ends,
`getGroups` returns without error the groups of the lines `ls`, and `getArticleNumbers`
returns the article numbers selected from the lines `ls`; `frag` contributes nothing. -/
theorem C18_truncation_tolerated (tbl : Char → Char) (now : Now) (poster : Str) (days : Int)
    (exact : Bool) (pattern : Str) (ls : List Str) (frag : Str)
    (hwf : ∀ l ∈ ls, ∃ body, l = body ++ ['\n'] ∧ '\n' ∉ body) (hfrag : '\n' ∉ frag)
    (hnodot : dotCRLF ∉ ls) :
    (getGroups (some (ls.flatten ++ frag)) pattern [] []).1 =
      Except.ok (ls.filterMap (fun l => (fields l).head?)) ∧
    getArticleNumbers tbl now (splitLines (ls.flatten ++ frag)) poster days exact =
      (ls.filterMap (selectRecord tbl (cutoffDate now days) (normalizeSearchTerm tbl poster).1
        (normalizeSearchTerm tbl poster).2 days exact), []) := by
  have hlines := splitLines_flatten ls frag hwf hfrag
  have hdrop : ls.dropWhile (fun l => l != dotCRLF) = [] := by
    rw [List.dropWhile_eq_nil_iff]
    intro x hx
    have : x ≠ dotCRLF := fun e => hnodot (e ▸ hx)
    simpa using this
  constructor
  · have hno : ¬ (([] : Str) ≠ [] ∧ ([] : Str) ≠ []) := by simp
    simp only [getGroups, if_neg hno, Conn.write, hlines, getGroupsLoop_eq,
      takeWhile_ne_of_not_mem ls hnodot]
  · apply Prod.ext
    · simp only [getArticleNumbers, hlines, scanLoop_fst, takeWhile_ne_of_not_mem ls hnodot]
    · simp only [getArticleNumbers, hlines, scanLoop_snd, hdrop, List.drop_nil]

/-- C18 at a concrete stream that ends in the middle of the third line. -/
theorem C18_truncation_tolerated_witness :
    (getGroups (some (["a.b 2 1 y\r\n".toList, "c.d 9 3 y\r\n".toList].flatten ++
      "e.f 4".toList)) "*".toList [] []).1 = Except.ok ["a.b".toList, "c.d".toList] :=
  (C18_truncation_tolerated id (Now.fixed 0) [] 0 false "*".toList
    ["a.b 2 1 y\r\n".toList, "c.d 9 3 y\r\n".toList] "e.f 4".toList
    (by
      intro l hl
      simp only [List.mem_cons, List.mem_singleton, List.not_mem_nil, or_false] at hl
      rcases hl with e | e
      · exact ⟨"a.b 2 1 y\r".toList, by rw [e]; decide, by decide⟩
      · exact ⟨"c.d 9 3 y\r".toList, by rw [e]; decide, by decide⟩)
    (by decide) (by decide)).1.trans rfl

/-- C19. Exact mode is at least as strict as substring mode: on the same inputs the list
returned with `exactMatch = true` is a sublist of the list returned with
`exactMatch = false`. -/
theorem C19_exact_sublist_substring (tbl : Char → Char) (now : Now) (poster : Str)
    (days : Int) (lines : List Str) :
    List.Sublist (getArticleNumbers tbl now lines poster days true).1
      (getArticleNumbers tbl now lines poster days false).1 := by
  simp only [getArticleNumbers, scanLoop_fst]
  apply filterMap_sublist_of_le
  intro x y hxy
  obtain ⟨f1, ff, f3, more, hs, hm, date, hd, hgate⟩ := selectRecord_some _ _ _ _ _ _ _ _ hxy
  simp only [posterMatch, if_true, Bool.and_eq_true, beq_iff_eq] at hm
  have hm2 : posterMatch tbl (normalizeSearchTerm tbl poster).1 (normalizeSearchTerm tbl poster).2
      false ff = true := by
    simp only [posterMatch, Bool.false_eq_true, if_false, Bool.and_eq_true]
    rw [hm.1, hm.2]
    exact ⟨contains_self _, contains_self _⟩
  rw [selectRecord_of_fields _ _ _ _ _ _ _ _ _ _ _ _ hs, if_pos hm2]
  simp only [hd, if_pos hgate]

/-- C19 at a concrete block: exact mode keeps the one record of `john doe`, substring
mode the two records whose name contains it. -/
theorem C19_exact_sublist_substring_witness :
    List.Sublist ["105".toList] ["3".toList, "105".toList] := by
  have h := C19_exact_sublist_substring id (Now.fixed 0) "john doe <j@x.com>".toList 0
    ["3\ts\tBig John Doe <j@x.com>\tMon, 1 Jan 2024 10:00:00 +0000\tx\r\n".toList, sampleLine,
     dotCRLF]
  have e1 : (getArticleNumbers id (Now.fixed 0)
      ["3\ts\tBig John Doe <j@x.com>\tMon, 1 Jan 2024 10:00:00 +0000\tx\r\n".toList, sampleLine,
       dotCRLF] "john doe <j@x.com>".toList 0 true).1 = ["105".toList] := by decide
  have e2 : (getArticleNumbers id (Now.fixed 0)
      ["3\ts\tBig John Doe <j@x.com>\tMon, 1 Jan 2024 10:00:00 +0000\tx\r\n".toList, sampleLine,
       dotCRLF] "john doe <j@x.com>".toList 0 false).1 = ["3".toList, "105".toList] := by
    decide
  rw [e1, e2] at h
  exact h

theorem split_last (sep x : Char) (s : Str) (hx : x ≠ sep) :
    ∃ init m, split sep (s ++ [x]) = init ++ [m ++ [x]] := by
  induction s with
  | nil => exact ⟨[], [], by simp [split, hx]⟩
  | cons c cs ih =>
    obtain ⟨init, m, h⟩ := ih
    by_cases hc : c = sep
    · exact ⟨[] :: init, m, by simp [split, hc, h]⟩
    · cases init with
      | nil => exact ⟨[], c :: m, by simp [split, hc, h]⟩
      | cons p ps => exact ⟨(c :: p) :: ps, m, by simp [split, hc, h]⟩

theorem trimFunc_concat_neg (p : Char → Bool) (m : Str) (x : Char) (hx : p x = false) :
    trimFunc p (m ++ [x]) = m.dropWhile p ++ [x] := by
  have hd : (m ++ [x]).dropWhile p = m.dropWhile p ++ [x] := by
    rw [List.dropWhile_append]
    split
    · rename_i he
      have : m.dropWhile p = [] := by simpa using he
      simp [this, List.dropWhile_cons, hx]
    · rfl
  rw [trimFunc_eq, hd]
  exact List.rdropWhile_concat_neg p _ x (by simp [hx])

theorem trimFunc_within (p : Char → Bool) (s : Str) : trimFunc p s <:+: s := by
  rw [trimFunc_eq]
  exact (List.rdropWhile_prefix p _).isInfix.trans (List.dropWhile_suffix p).isInfix

/-- C20. A line with exactly four tab-separated fields that ends with its line feed, and
whose fourth field does not contain a blank followed by an opening parenthesis, is never
selected: the string handed to `time.Parse` still ends with the line feed (only blanks
are trimmed), parsing fails, and the line contributes nothing in either match mode and
for every value of days, whatever the poster and the date text. -/
theorem C20_four_field_record (tbl : Char → Char) (now : Now) (poster : Str) (days : Int)
    (exact : Bool) (line body f0 f1 fromField f3 : Str)
    (hline : line = body ++ ['\n'])
    (hfields : split '\t' line = [f0, f1, fromField, f3])
    (hparen : ¬ " (".toList <:+: f3) :
    (∃ m, dateString f3 = m ++ ['\n']) ∧
    parseDate (dateString f3) = none ∧
    selectRecord tbl (cutoffDate now days) (normalizeSearchTerm tbl poster).1
      (normalizeSearchTerm tbl poster).2 days exact line = none ∧
    (∀ pre post,
      (getArticleNumbers tbl now (pre ++ line :: post) poster days exact).1 =
        (getArticleNumbers tbl now (pre ++ post) poster days exact).1) := by
  obtain ⟨init, m, hsplit⟩ := split_last '\t' '\n' body (by decide)
  rw [← hline, hfields] at hsplit
  have hf3 : f3 = m ++ ['\n'] := by
    have h := List.append_inj_right' (show [f0, f1, fromField] ++ [f3] = init ++ [m ++ ['\n']]
      from hsplit) rfl
    simpa using h
  have htrim : trim f3 ' ' = m.dropWhile (fun c => c == ' ') ++ ['\n'] := by
    unfold trim
    rw [hf3]
    exact trimFunc_concat_neg _ m '\n' (by decide)
  have hds : dateString f3 = m.dropWhile (fun c => c == ' ') ++ ['\n'] := by
    unfold dateString
    have hni : ¬ " (".toList <:+: trim f3 ' ' := fun hi => hparen (hi.trans (trimFunc_within _ f3))
    rw [splitHead_of_absent _ _ hni, htrim]
  have hparse : parseDate (dateString f3) = none := by
    cases hp : parseDate (dateString f3) with
    | none => rfl
    | some t =>
      have hr := (parseDate_inv _ t hp).1 '\n' (by rw [hds]; simp)
      exact absurd hr (by decide)
  have hsel : selectRecord tbl (cutoffDate now days) (normalizeSearchTerm tbl poster).1
      (normalizeSearchTerm tbl poster).2 days exact line = none := by
    rw [selectRecord_of_fields _ _ _ _ _ _ _ _ _ _ _ _ hfields, hparse]
    simp
  have hnd : line ≠ dotCRLF := by
    intro e
    rw [e] at hfields
    have hlen := congrArg List.length hfields
    have h1 : (split '\t' dotCRLF).length = 1 := by decide
    rw [h1] at hlen
    simp at hlen
  refine ⟨⟨_, hds⟩, hparse, hsel, ?_⟩
  intro pre post
  simp only [getArticleNumbers]
  exact scanLoop_remove _ _ _ _ _ _ _ _ _ hnd hsel

/-- C20 at a concrete line: the sample record cut down to four fields, with a date that
would parse and a poster that matches, is not selected. -/
theorem C20_four_field_record_witness :
    selectRecord id (cutoffDate (Now.fixed 0) 0) (normalizeSearchTerm id "john".toList).1
      (normalizeSearchTerm id "john".toList).2 0 false
      "105\tHello\tJohn Doe <j@x.com>\tMon, 1 Jan 2024 10:00:00 +0000\r\n".toList = none :=
  (C20_four_field_record id (Now.fixed 0) "john".toList 0 false
    "105\tHello\tJohn Doe <j@x.com>\tMon, 1 Jan 2024 10:00:00 +0000\r\n".toList
    "105\tHello\tJohn Doe <j@x.com>\tMon, 1 Jan 2024 10:00:00 +0000\r".toList
    "105".toList "Hello".toList "John Doe <j@x.com>".toList
    "Mon, 1 Jan 2024 10:00:00 +0000\r\n".toList (by decide) (by decide) (by decide)).2.2.1

end GaPlus
